import Mathlib

/-!
Verification of the Orcoos NoSQL-DB adapter core
(`src/lib/nosqldb-adapter/client.js`).

The development shallowly embeds the query/update/projection compiler,
the binding table, the row marshaller and the batch cursor of
`OrcoosCollection` / `OrcoosFindCursor` into Lean.  JavaScript values
are modelled by the mutual inductive `JVal` below; JS objects are
insertion-ordered association lists (`JFields`).  Modelling notes:

* JS property iteration (`for ... in`) is modelled as insertion order.
  (Real JS additionally hoists canonical-integer keys; no claim here
  depends on documents with integer-like keys, and theorems that could
  be sensitive to it carry explicit hypotheses excluding such keys.)
* A `Date` value is modelled as carrying its ISO-8601 string
  (`Date.toISOString()`); a bson `ObjectId` carries its hex string.
* `throw` is modelled with `Except Err`; all state that JS mutates in
  place (the bindings object, the cursor) is threaded explicitly.
-/

namespace Orcoos

/-- Constants from the top of `client.js`. -/
def OBJECTID_ENABLED : Bool := false

/-- Prefix used to tag ObjectId values (`OBJECTID_PREFIX`). -/
def OBJECTID_PREFIX : String := "_obid_"

/-- Maximum binding-name suffix bound (`MAX_BINDING_NAME`). -/
def MAX_BINDING_NAME : Nat := 1000

/-- Default row cap of a cursor (`MAX_QUERY_RESULTS_LIMIT`). -/
def MAX_QUERY_RESULTS_LIMIT : Nat := 10000

/-- Physical key column name (`KVID`). -/
def KVID : String := "kvid"

/-- Table alias used in generated SQL (`T`). -/
def T : String := "$t"

/-- Errors thrown by the embedded code (`throw new Error(...)` /
`throw Error(...)` sites, distinguished by site). -/
inductive Err : Type where
  /-- "Too many bindings with base name: ..." in `_storeBinding`. -/
  | tooManyBindings
  /-- "Operator '...' not known." in `_computeUpdateClause`. -/
  | unknownUpdateOperator (op : String)
  /-- "Unexpected input value for where expression" in `_computeWhere`. -/
  | invalidWhereInput
  /-- "Query filter must be a plain object or ObjectId" in `_computeCompStartExp`. -/
  | invalidFilterObject
  /-- "Unknown top level operator: ..." in `_computeCompExp`. -/
  | unknownTopOperator (op : String)
  /-- "Unexpected regex value for a comparison expression". -/
  | invalidRegexValue
  /-- "Unexpected property value for a comparison expression". -/
  | invalidCompProperty
  /-- "ISE prop: ..." fall-through in `_computeCompExp`. -/
  | iseProp (prop : String)
  /-- "Property is not a string type" in `_computeDbProp`. -/
  | propNotString
  /-- "Projection cannot be both inclusive and exclusive" (either message) in `_conputeProjection`. -/
  | projectionConflict
  /-- "Schema is not provided for the projection". -/
  | missingSchema
  /-- "Unsupported type" during the exclusion-mode schema walk. -/
  | unsupportedSchemaType
  /-- "Unsupported operator" / "Invalid ... params" in `_computePrjOperators`. -/
  | invalidProjectionOperator (op : String)
  /-- "Invalid operand value" in `_computePrjOperands`. -/
  | invalidProjectionOperand
  /-- A JS TypeError (calling an array method on a non-array), only
  reachable on inputs outside every claim considered here. -/
  | typeError
  /-- "Query results count ... more than toArray maxLimit" in `toArray`. -/
  | resultLimitExceeded
  /-- Failure of the store call that starts statement execution
  (`queryIterable` on first fetch). -/
  | storeStartFailed
  /-- Failure of a mid-stream batch fetch (`this._gen.next()`). -/
  | storeMidStreamFailed
  deriving DecidableEq, Repr

mutual
/-- Model of a JavaScript value as it occurs in documents, filters,
updates and bindings of `client.js`. -/
inductive JVal : Type where
  | null : JVal
  | undef : JVal
  | bool (b : Bool) : JVal
  | num (n : Int) : JVal
  | str (s : String) : JVal
  | date (iso : String) : JVal
  | oid (hex : String) : JVal
  | arr (elems : JList) : JVal
  | obj (fields : JFields) : JVal
  deriving DecidableEq

/-- A JS array of values. -/
inductive JList : Type where
  | nil : JList
  | cons (head : JVal) (tail : JList) : JList
  deriving DecidableEq

/-- A JS object: insertion-ordered fields. -/
inductive JFields : Type where
  | nil : JFields
  | cons (key : String) (val : JVal) (tail : JFields) : JFields
  deriving DecidableEq
end

/-- Builds a `JList` from a Lean list. -/
def JList.ofList : List JVal → JList
  | [] => .nil
  | v :: t => .cons v (JList.ofList t)

/-- Builds a `JFields` from a Lean association list. -/
def JFields.ofList : List (String × JVal) → JFields
  | [] => .nil
  | (k, v) :: t => .cons k v (JFields.ofList t)

/-- Concatenation of `JList`s. -/
def jlAppend : JList → JList → JList
  | .nil, ys => ys
  | .cons x t, ys => .cons x (jlAppend t ys)

/-- Length of a `JList`. -/
def JList.length : JList → Nat
  | .nil => 0
  | .cons _ t => 1 + JList.length t

/-- Keys of a `JFields`, in order. -/
def JFields.keys : JFields → List String
  | .nil => []
  | .cons k _ t => k :: JFields.keys t

/-- First value bound to `k`, if any (JS property read on own keys). -/
def jLookup : JFields → String → Option JVal
  | .nil, _ => none
  | .cons k v t, k' => if k = k' then some v else jLookup t k'

/-- JS property read: an absent property reads as `undefined`. -/
def jGet (fs : JFields) (k : String) : JVal :=
  (jLookup fs k).getD (.undef)

/-- JS property write: overwrites in place if present, appends otherwise. -/
def jSet : JFields → String → JVal → JFields
  | .nil, k, v => .cons k v .nil
  | .cons k₀ v₀ t, k, v =>
    if k₀ = k then .cons k₀ v t else .cons k₀ v₀ (jSet t k v)

/-- JS `delete obj[k]`: removes the property named `k`. -/
def jErase : JFields → String → JFields
  | .nil, _ => .nil
  | .cons k₀ v₀ t, k => if k₀ = k then jErase t k else .cons k₀ v₀ (jErase t k)

/-- Concatenation of field lists (used by `Object.assign` modelling). -/
def jAppend : JFields → JFields → JFields
  | .nil, gs => gs
  | .cons k v t, gs => .cons k v (jAppend t gs)

/-- Whether `fs` has a property named `k`. -/
def jHas (fs : JFields) (k : String) : Bool :=
  (jLookup fs k).isSome

/-- JavaScript truthiness of a modelled value. -/
def truthy : JVal → Bool
  | .null => false
  | .undef => false
  | .bool b => b
  | .num n => n != 0
  | .str s => !s.isEmpty
  | .date _ => true
  | .oid _ => true
  | .arr _ => true
  | .obj _ => true

mutual
/-- JS string conversion `"" + v`, for the cases the adapter exercises.
`Date` string conversion (locale format in JS) is approximated by the
ISO string; no claim instantiates a `Date` in a stringified position. -/
def jsToString : JVal → String
  | .null => "null"
  | .undef => "undefined"
  | .bool b => if b then "true" else "false"
  | .num n => toString n
  | .str s => s
  | .date iso => iso
  | .oid hex => hex
  | .arr xs => jsToStringList xs
  | .obj _ => "[object Object]"

/-- Array `toString`: comma-joined elements, `null`/`undefined` as empty. -/
def jsToStringList : JList → String
  | .nil => ""
  | .cons v .nil =>
    (match v with | .null => "" | .undef => "" | _ => jsToString v)
  | .cons v t =>
    (match v with | .null => "" | .undef => "" | _ => jsToString v) ++ "," ++
      jsToStringList t
end

mutual
/-- JSON.stringify of a modelled value (string escaping is not modelled;
no claim exercises strings that need escaping). -/
def jsonStringify : JVal → String
  | .null => "null"
  | .undef => "undefined"
  | .bool b => if b then "true" else "false"
  | .num n => toString n
  | .str s => "\"" ++ s ++ "\""
  | .date iso => "\"" ++ iso ++ "\""
  | .oid hex => "\"" ++ hex ++ "\""
  | .arr xs => "[" ++ jsonStringifyList xs ++ "]"
  | .obj fs => "\x7b" ++ jsonStringifyFields fs ++ "\x7d"

/-- JSON.stringify of array elements, comma-joined. -/
def jsonStringifyList : JList → String
  | .nil => ""
  | .cons v .nil => jsonStringify v
  | .cons v t => jsonStringify v ++ "," ++ jsonStringifyList t

/-- JSON.stringify of object fields, comma-joined. -/
def jsonStringifyFields : JFields → String
  | .nil => ""
  | .cons k v .nil => "\"" ++ k ++ "\":" ++ jsonStringify v
  | .cons k v t => "\"" ++ k ++ "\":" ++ jsonStringify v ++ "," ++
      jsonStringifyFields t
end

/-- Embedding of `_computeLiteral`: falsy values (and `null`) render as
the SQL literal `NULL`; anything else as its JSON serialization. -/
def computeLiteral (value : JVal) : String :=
  if !truthy value then "NULL" else jsonStringify value

/-- Splits a character list at every occurrence of `c`
(the char-list model of JS `String.split(c)`). -/
def splitOnChar (c : Char) : List Char → List (List Char)
  | [] => [[]]
  | x :: xs =>
    match splitOnChar c xs with
    | [] => [[]]
    | h :: t => if x = c then [] :: h :: t else (x :: h) :: t

/-- JS `s.split(c)` as a list of strings. -/
def jsSplit (s : String) (c : Char) : List String :=
  (splitOnChar c s.data).map String.mk

/-- JS `Array.join(sep)` over strings. -/
def jsJoin (sep : String) : List String → String
  | [] => ""
  | [x] => x
  | x :: y :: t => x ++ sep ++ jsJoin sep (y :: t)

/-- JS `name.replace('.', '_')`: replaces only the first dot. -/
def jsReplaceFirstDot (s : String) : String :=
  match jsSplit s '.' with
  | [] => s
  | [x] => x
  | x :: y :: rest => x ++ "_" ++ jsJoin "." (y :: rest)

/-- Digit character of a decimal digit (`0`-`9`). -/
def digCh : Nat → Char
  | 0 => '0' | 1 => '1' | 2 => '2' | 3 => '3' | 4 => '4'
  | 5 => '5' | 6 => '6' | 7 => '7' | 8 => '8' | _ => '9'

/-- Little-endian decimal digits of `n`, driven by fuel (any fuel
greater than `n` suffices). -/
def natToStringAux : Nat → Nat → List Char
  | 0, _ => []
  | fuel + 1, n =>
    if n < 10 then [digCh n]
    else digCh (n % 10) :: natToStringAux fuel (n / 10)

/-- Decimal rendering of a natural number (the JS `"" + i` conversion
used when numeric binding-name suffixes and array indexes are turned
into strings). -/
def natToString (n : Nat) : String :=
  ⟨(natToStringAux (n + 1) n).reverse⟩

/-- Decimal value of a digit list. -/
def digitsToNat (l : List Char) : Nat :=
  l.foldl (fun n c => n * 10 + (c.toNat - 48)) 0

/-- Bindings map: a JS object from bound-variable name to value. -/
abbrev Bindings := JFields

/-- Suffix-probing loop of `_storeBinding`: starting at suffix `i`, find
the first `name ++ i` whose current value is falsy/absent, store there.
Fails past `MAX_BINDING_NAME`. -/
def storeBindingLoop (b : Bindings) (name : String) (value : JVal) :
    Nat → Nat → Except Err (String × Bindings)
  | _, 0 => .error .tooManyBindings
  | i, fuel + 1 =>
    if truthy (jGet b (name ++ natToString i)) then
      storeBindingLoop b name value (i + 1) fuel
    else
      .ok (name ++ natToString i, jSet b (name ++ natToString i) value)

/-- Embedding of `_storeBinding` for a present bindings object: prefix
the(.-sanitised) name with `$`; store under the base name if its current
value is falsy, else probe numeric suffixes from 2. -/
def storeBinding (b : Bindings) (name : String) (value : JVal) :
    Except Err (String × Bindings) :=
  let name := "$" ++ jsReplaceFirstDot name
  if !truthy (jGet b name) then
    .ok (name, jSet b name value)
  else
    storeBindingLoop b name value 2 (MAX_BINDING_NAME - 2)

/-- Embedding of `_storeBinding` including the absent-bindings case
(callers such as UPDATE/DELETE pass `undefined` bindings, in which case
the value is embedded as a literal and nothing is stored). -/
def storeBindingOpt (b : Option Bindings) (name : String) (value : JVal) :
    Except Err (String × Option Bindings) :=
  match b with
  | none => .ok (computeLiteral value, none)
  | some b =>
    match storeBinding b name value with
    | .ok (n, b') => .ok (n, some b')
    | .error e => .error e

/-- JS `s.startsWith(pre)`, modelled on the character list. -/
def jsStartsWith (s pre : String) : Bool :=
  pre.data.isPrefixOf s.data

/-- JS `s.substring(n)` (equivalently `s.slice(n)` for `0 ≤ n`),
modelled on the character list. -/
def jsDrop (s : String) (n : Nat) : String :=
  ⟨s.data.drop n⟩

/-- Key-schema state of an `OrcoosCollection`
(fields `_hasCompositeKeys` and `_primaryKeyList`). -/
structure Col : Type where
  hasCompositeKeys : Bool
  primaryKeyList : List String
  deriving DecidableEq, Repr

/-- A collection over the default simple key (`kvid`). -/
def simpleCol : Col := ⟨false, [KVID]⟩

/-- Embedding of `_isPositiveInteger`: `String(Math.floor(Number(str)))
=== str && n >= 0`.  Modelled as: the string is the canonical decimal
form of a natural number.  (Exotic JS numeric forms such as `"1e21"`,
which JS would accept, are not modelled; no claim involves them.) -/
def isPositiveInteger (s : String) : Bool :=
  (!s.data.isEmpty && s.data.all (fun c => c.isDigit)) &&
    natToString (digitsToNat s.data) == s

/-- Generic dot-path translation used by `_computeDbProp` for
non-identity paths: dot segments become quoted accessors, canonical
integer segments become array indexes. -/
def dbPathTrans (prop : String) : String :=
  (jsSplit prop '.').foldl
    (fun acc cur =>
      if isPositiveInteger cur then acc ++ "[" ++ cur ++ "]"
      else acc ++ ".\"" ++ cur ++ "\"")
    ""

/-- Embedding of `_computeDbProp`.  The JS dynamic string-type check is
subsumed by the Lean type.  Any property whose name starts with the
characters `_id` takes the key-column branch. -/
def computeDbProp (c : Col) (prop : String) : String :=
  if jsStartsWith prop "_id" then
    if !c.hasCompositeKeys then T ++ "." ++ KVID
    else T ++ "." ++ jsDrop prop 3
  else
    T ++ dbPathTrans prop ++ "[]"

/-- Embedding of `_computeUpdateSetPutProp`: rewrites a dot path into a
nested JSON object wrapping `value`; non-string properties fall through
the type guard and the JS function returns `undefined`. -/
def computeUpdateSetPutProp (prop : JVal) (value : String) : String :=
  match prop with
  | .str s =>
    (jsSplit s '.').foldr
      (fun cur acc => "\x7b\"" ++ cur ++ "\": " ++ acc ++ "\x7d") value
  | _ => "undefined"

/-- Embedding of `_computeUpdateRenamePutProp`: drops the last path
segment (JS `substring(0, lastIndexOf('.'))`, empty when dotless) and
re-nests `value` under the renamed property. -/
def computeUpdateRenamePutProp (c : Col) (prop : String)
    (renamedProp : JVal) (value : String) : String :=
  let parts := jsSplit prop '.'
  let newProp := if parts.length ≤ 1 then ""
    else jsJoin "." parts.dropLast
  computeDbProp c newProp ++ " " ++ computeUpdateSetPutProp renamedProp value

/-- JS `for ... in` over an array visits index keys; used when an
object-expected position holds an array. -/
def indexedFields : JList → Nat → JFields
  | .nil, _ => .nil
  | .cons v t, i => .cons (toString i) v (indexedFields t (i + 1))

/-- Enumerable own fields of a value in an `instanceof Object` position:
objects expose their fields, arrays their indexed elements, `Date` and
`ObjectId` no enumerable fields; primitives are not objects. -/
def innerFields : JVal → Option JFields
  | .obj fs => some fs
  | .arr xs => some (indexedFields xs 0)
  | .date _ => some .nil
  | .oid _ => some .nil
  | _ => none

/-- One operator block of `_computeUpdateClause`: the clauses appended
for top-level operator `key` over its field sub-object `fs`. -/
def updateOpClauses (c : Col) (key : String) (fs : JFields) :
    Except Err String :=
  match key with
  | "$set" =>
    .ok (go fs)
  | "$unset" =>
    .ok (goUnset fs)
  | "$currentDate" =>
    .ok (goCur fs)
  | "$inc" =>
    .ok (goInc fs)
  | "$min" =>
    .ok (goMin fs)
  | "$max" =>
    .ok (goMax fs)
  | "$mul" =>
    .ok (goMul fs)
  | "$rename" =>
    .ok (goRen fs)
  | _ => .error (.unknownUpdateOperator key)
where
  go : JFields → String
    | .nil => ""
    | .cons k v t =>
      ", PUT " ++ T ++ " " ++
        computeUpdateSetPutProp (.str k) (computeLiteral v) ++ go t
  goUnset : JFields → String
    | .nil => ""
    | .cons k _ t => ", REMOVE " ++ computeDbProp c k ++ goUnset t
  goCur : JFields → String
    | .nil => ""
    | .cons k _ t =>
      ", SET " ++ computeDbProp c k ++
        " = CAST (current_time() AS String)" ++ goCur t
  goInc : JFields → String
    | .nil => ""
    | .cons k v t =>
      ", SET " ++ computeDbProp c k ++ " = " ++ computeDbProp c k ++
        " + " ++ computeLiteral v ++ goInc t
  goMin : JFields → String
    | .nil => ""
    | .cons k v t =>
      ", SET " ++ computeDbProp c k ++ " = " ++
        "CASE WHEN " ++ computeLiteral v ++ " < " ++ computeDbProp c k ++
        " THEN " ++ computeLiteral v ++
        " ELSE " ++ computeDbProp c k ++
        " END" ++ goMin t
  goMax : JFields → String
    | .nil => ""
    | .cons k v t =>
      ", SET " ++ computeDbProp c k ++ " = " ++
        "CASE WHEN " ++ computeLiteral v ++ " > " ++ computeDbProp c k ++
        " THEN " ++ computeLiteral v ++
        " ELSE " ++ computeDbProp c k ++
        " END" ++ goMax t
  goMul : JFields → String
    | .nil => ""
    | .cons k v t =>
      ", SET " ++ computeDbProp c k ++
        " = " ++ computeDbProp c k ++ " * " ++ computeLiteral v ++ goMul t
  goRen : JFields → String
    | .nil => ""
    | .cons k v t =>
      ", PUT " ++ computeUpdateRenamePutProp c k v (computeDbProp c k) ++
        ", REMOVE " ++ computeDbProp c k ++ goRen t

/-- Main loop of `_computeUpdateClause` over the top-level operators.
An operator key whose value is not an object falls through every
`key == ... && value instanceof Object` test into the unknown-operator
error, exactly as the JS if/else ladder does. -/
def updateClauseLoop (c : Col) : JFields → Except Err String
  | .nil => .ok ""
  | .cons key v t =>
    match innerFields v with
    | some fs =>
      match key with
      | "$set" | "$unset" | "$currentDate" | "$inc" | "$min" | "$max"
      | "$mul" | "$rename" =>
        match updateOpClauses c key fs with
        | .ok s =>
          (match updateClauseLoop c t with
           | .ok rest => .ok (s ++ rest)
           | .error e => .error e)
        | .error e => .error e
      | _ => .error (.unknownUpdateOperator key)
    | none => .error (.unknownUpdateOperator key)

/-- Embedding of `_computeUpdateClause`: emit the operator clauses in
iteration order, then strip one leading comma. -/
def computeUpdateClause (c : Col) (update : JFields) : Except Err String :=
  match updateClauseLoop c update with
  | .ok s => .ok (if jsStartsWith s "," then jsDrop s 1 else s)
  | .error e => .error e

/-- JS property read on an arbitrary value (`_id[v]` in
`_computeWherePk`): objects expose their fields, everything else reads
as `undefined`.  (JS numeric-index reads on strings are not modelled;
primary-key field names are identifiers.) -/
def propOf (v : JVal) (k : String) : JVal :=
  match v with
  | .obj fs => jGet fs k
  | _ => (.undef)

/-- Composite-key part of `_computeWherePk`: one bound equality per
key field, threaded through the bindings map in order. -/
def wherePkFields (b : Option Bindings) (id : JVal) :
    List String → Except Err (List String × Option Bindings)
  | [] => .ok ([], b)
  | f :: t =>
    match storeBindingOpt b ("id_" ++ f) (propOf id f) with
    | .ok (n, b') =>
      match wherePkFields b' id t with
      | .ok (parts, b'') => .ok ((T ++ "." ++ f ++ " = " ++ n) :: parts, b'')
      | .error e => .error e
    | .error e => .error e

/-- Embedding of `_computeWherePk`: simple keys bind the stringified
identity against the key column; composite keys AND-join one bound
equality per primary-key field whose value in `_id` is truthy
(`.filter(v => _id[v])`). -/
def computeWherePk (c : Col) (b : Option Bindings) (id : JVal) :
    Except Err (String × Option Bindings) :=
  if !c.hasCompositeKeys then
    match storeBindingOpt b "id" (.str (jsToString id)) with
    | .ok (n, b') => .ok (T ++ "." ++ KVID ++ " = " ++ n, b')
    | .error e => .error e
  else
    match wherePkFields b id
        (c.primaryKeyList.filter fun f => truthy (propOf id f)) with
    | .ok (parts, b') => .ok (jsJoin " AND " parts, b')
    | .error e => .error e

/-- Embedding of `_isEmptyObject`: a keyless object (or array) that is
not a `Date` or `ObjectId`. -/
def isEmptyObject : JVal → Bool
  | .obj .nil => true
  | .arr .nil => true
  | _ => false

/-- JS `instanceof Object` for modelled values. -/
def isObjectLike : JVal → Bool
  | .obj _ => true
  | .arr _ => true
  | .date _ => true
  | .oid _ => true
  | _ => false

/-- The `_id` type test in `_computeWhere`: a string, `String`,
`ObjectId`, or any `Object` (which includes arrays and dates). -/
def idTypeObject : JVal → Bool
  | .str _ => true
  | .oid _ => true
  | .obj _ => true
  | .arr _ => true
  | .date _ => true
  | _ => false

/-- JS loose equality with `false` (`value == false`) for the values
the `$exists` branch can meet; exotic coercions are not modelled. -/
def jsEqFalse : JVal → Bool
  | .bool b => !b
  | .num n => n == 0
  | .str s => s == "" || s == "0"
  | .arr .nil => true
  | _ => false

/-- JS `v.includes(ch)` when `v` is a string (non-strings would raise a
TypeError; not modelled, unreachable in the claims). -/
def jsIncludes (v : JVal) (ch : Char) : Bool :=
  match v with
  | .str s => s.data.contains ch
  | _ => false

/-- The element loop of the `$in`/`$nin` branch of `_computeCompExp`:
walks the array with its index, skipping `null` elements (recording
their presence), comma-separating according to `i > (containsNull ? 1 : 0)`,
and binding each non-null element.  Returns the accumulated member
text, the non-null count, the null flag and the final bindings. -/
def inLoop (prop : String) :
    JList → Nat → Bool → String → Nat → Option Bindings →
      Except Err (String × Nat × Bool × Option Bindings)
  | .nil, _, c, acc, cnt, b => .ok (acc, cnt, c, b)
  | .cons v t, i, c, acc, cnt, b =>
    match v with
    | .null => inLoop prop t (i + 1) true acc cnt b
    | v =>
      let acc := if i > (if c then 1 else 0) then acc ++ "," else acc
      match storeBindingOpt b prop v with
      | .ok (n, b') => inLoop prop t (i + 1) c (acc ++ n) (cnt + 1) b'
      | .error e => .error e

/-- The `$in`/`$nin` fragment appended to `lres` for a non-empty array
operand: the `IN` member list spliced into an equals-or-array-contains
disjunction (`$in`) or its negation (`$nin`), with an extra
existence branch when the array contained `null`, and an unconditional
closing parenthesis. -/
def inFragment (c : Col) (isIn : Bool) (prop : String) (xs : JList)
    (b : Option Bindings) : Except Err (String × Option Bindings) :=
  let kvProp := computeDbProp c prop
  match inLoop prop xs 0 false "" 0 b with
  | .ok (members, cnt, containsNull, b') =>
    let inRes := " IN (" ++ members ++ ")"
    if isIn then
      .ok ((if cnt > 0 then
              "(" ++ kvProp ++ inRes ++ " OR EXISTS (" ++ kvProp ++
                "[$element" ++ inRes ++ "])"
            else "") ++
           (if containsNull then " OR NOT EXISTS " ++ kvProp else "") ++
           ")", b')
    else
      .ok ((if cnt > 0 then
              " NOT (" ++ kvProp ++ inRes ++ " OR EXISTS (" ++ kvProp ++
                "[$element" ++ inRes ++ "])"
            else "") ++
           (if containsNull then " OR EXISTS " ++ kvProp else "") ++
           ")", b')
  | .error e => .error e

/-- One operator entry of the inner loop of `_computeCompExp` over a
field's operator object.  `allFs` is the whole operator object (the
`$regex` branch reads `propValue.$regex` / `propValue.$options` from
it). -/
def opEntry (c : Col) (prop : String) (allFs : JFields)
    (firstProp : String) (fv : JVal) (b : Option Bindings) :
    Except Err (String × Option Bindings) :=
  match firstProp with
  | "$gt" =>
    match storeBindingOpt b prop fv with
    | .ok (n, b') =>
      .ok ("(" ++ computeDbProp c prop ++ " > " ++ n ++ ")", b')
    | .error e => .error e
  | "$gte" =>
    match storeBindingOpt b prop fv with
    | .ok (n, b') =>
      .ok ("(" ++ computeDbProp c prop ++ " >= " ++ n ++ ")", b')
    | .error e => .error e
  | "$lt" =>
    match storeBindingOpt b prop fv with
    | .ok (n, b') =>
      .ok ("(" ++ computeDbProp c prop ++ " < " ++ n ++ ")", b')
    | .error e => .error e
  | "$lte" =>
    match storeBindingOpt b prop fv with
    | .ok (n, b') =>
      .ok ("(" ++ computeDbProp c prop ++ " <= " ++ n ++ ")", b')
    | .error e => .error e
  | "$ne" =>
    match storeBindingOpt b prop fv with
    | .ok (n, b') =>
      .ok ("(" ++ computeDbProp c prop ++ " != " ++ n ++ ")", b')
    | .error e => .error e
  | "$eq" =>
    match storeBindingOpt b prop fv with
    | .ok (n, b') =>
      .ok ("(" ++ computeDbProp c prop ++ " = " ++ n ++ ")", b')
    | .error e => .error e
  | "$exists" =>
    .ok ("(" ++ (if jsEqFalse fv then "NOT " else "") ++ "EXISTS " ++ T ++
      ".\"" ++ prop ++ "\")", b)
  | "$options" => .ok ("", b)
  | "$regex" =>
    match fv with
    | .obj rfs =>
      if truthy (jGet rfs "$regex") && truthy (jGet rfs "$options") &&
          (match jGet rfs "$options" with | .str "i" => true | _ => false) then
        match storeBindingOpt b prop (jGet rfs "$regex") with
        | .ok (n, b') =>
          .ok ("( regex_like(" ++ computeDbProp c prop ++ ", " ++ n ++
            ") )", b')
        | .error e => .error e
      else .error .invalidRegexValue
    | _ =>
      match jGet allFs "$regex" with
      | .str pat =>
        let opt := (if jsIncludes (jGet allFs "$options") 'i' then "i"
                    else "") ++
                   (if jsIncludes (jGet allFs "$options") 's' then "s"
                    else "")
        match storeBindingOpt b prop (.str pat) with
        | .ok (n, b') =>
          .ok ("( regex_like(" ++ computeDbProp c prop ++ ", " ++ n ++
            ",\"" ++ opt ++ "\") )", b')
        | .error e => .error e
      | _ => .error .invalidRegexValue
  | "$in" =>
    match fv with
    | .arr (.cons x xs) => inFragment c true prop (.cons x xs) b
    | _ => .ok ("", b)
  | "$nin" =>
    match fv with
    | .arr (.cons x xs) => inFragment c false prop (.cons x xs) b
    | _ => .ok ("", b)
  | "$size" =>
    .ok ("( size([" ++ computeDbProp c prop ++ "]) = " ++
      jsToString (jGet allFs "$size") ++ " )", b)
  | _ => .error .invalidCompProperty

/-- The inner loop of `_computeCompExp` over the operator object of one
field: AND-joins operator fragments, skipping the separator before
`$options`. -/
def opLoop (c : Col) (prop : String) (allFs : JFields) :
    JFields → String → Option Bindings →
      Except Err (String × Option Bindings)
  | .nil, lres, b => .ok (lres, b)
  | .cons firstProp fv t, lres, b =>
    let lres := if lres ≠ "" && firstProp ≠ "$options" then lres ++ " AND "
      else lres
    match opEntry c prop allFs firstProp fv b with
    | .ok (s, b') => opLoop c prop allFs t (lres ++ s) b'
    | .error e => .error e

/-- Shared handling of a non-`$` entry `(prop, propValue)` of
`_computeCompExp`: an operator object runs the inner operator loop, a
bare scalar becomes an equals-or-array-contains-any predicate (with the
identity field taking the key columns, alias `t`), and anything else is
the internal-state error. -/
def compEntry (c : Col) (prop : String) (pv : JVal)
    (b : Option Bindings) : Except Err (String × Option Bindings) :=
  match pv with
  | .obj (.cons k v t) => opLoop c prop (.cons k v t) (.cons k v t) "" b
  | .arr (.cons _ _) => .error .invalidCompProperty
  | .str s =>
    if prop = "_id" then
      if c.hasCompositeKeys then
        match idScalarFields c.primaryKeyList prop (.str s) b with
        | .ok (parts, b') => .ok ("(" ++ jsJoin " AND " parts ++ ")", b')
        | .error e => .error e
      else
        match storeBindingOpt b prop (.str s) with
        | .ok (n, b') => .ok ("(t." ++ KVID ++ " = " ++ n ++ ")", b')
        | .error e => .error e
    else
      match storeBindingOpt b prop (.str s) with
      | .ok (n, b') =>
        .ok ("(" ++ computeDbProp c prop ++ " =any " ++ n ++ ")", b')
      | .error e => .error e
  | .date d => scalarEntry c prop (.date d) b
  | .num n => scalarEntry c prop (.num n) b
  | .oid h => scalarEntry c prop (.oid h) b
  | _ => .error (.iseProp prop)
where
  /-- Per-field equality of the bare-scalar `_id` branch on a
  composite-key table: binds the same scalar once per key field,
  alias `t`. -/
  idScalarFields : List String → String → JVal → Option Bindings →
      Except Err (List String × Option Bindings)
    | [], _, _, b => .ok ([], b)
    | f :: t, prop, v, b =>
      match storeBindingOpt b (prop ++ "_" ++ f) v with
      | .ok (n, b') =>
        match idScalarFields t prop v b' with
        | .ok (parts, b'') => .ok (("t." ++ f ++ " = " ++ n) :: parts, b'')
        | .error e => .error e
      | .error e => .error e
  /-- The bare-scalar branch shared by dates, numbers and ObjectIds. -/
  scalarEntry (c : Col) (prop : String) (v : JVal) (b : Option Bindings) :
      Except Err (String × Option Bindings) :=
    if prop = "_id" then
      if c.hasCompositeKeys then
        match idScalarFields c.primaryKeyList prop v b with
        | .ok (parts, b') => .ok ("(" ++ jsJoin " AND " parts ++ ")", b')
        | .error e => .error e
      else
        match storeBindingOpt b prop v with
        | .ok (n, b') => .ok ("(t." ++ KVID ++ " = " ++ n ++ ")", b')
        | .error e => .error e
    else
      match storeBindingOpt b prop v with
      | .ok (n, b') =>
        .ok ("(" ++ computeDbProp c prop ++ " =any " ++ n ++ ")", b')
      | .error e => .error e

/-- String specialisation of `_computeCompExp` (JS `for ... in` over a
string iterates its character indices; every entry is a bare
single-character string, so only the scalar branch can fire). -/
def strCompExp (c : Col) (s : String) (b : Option Bindings) :
    Except Err (String × Option Bindings) :=
  match go 0 s.data "" b with
  | .ok (res, b') => .ok (if res = "" then "" else "(" ++ res ++ ")", b')
  | .error e => .error e
where
  go : Nat → List Char → String → Option Bindings →
      Except Err (String × Option Bindings)
    | _, [], res, b => .ok (res, b)
    | i, ch :: t, res, b =>
      let res := if res ≠ "" then res ++ " AND " else res
      match compEntry c (natToString i) (.str (String.mk [ch])) b with
      | .ok (s', b') => go (i + 1) t (res ++ s') b'
      | .error e => .error e

/-- Index-keyed field loop of `_computeCompExp` when the compiled node
is an array (JS `for ... in` over an array yields index keys, which
never start with `$`). -/
def compExpArrFields (c : Col) :
    JList → Nat → String → Option Bindings →
      Except Err (String × Option Bindings)
  | .nil, _, res, b => .ok (res, b)
  | .cons v t, i, res, b =>
    let res := if res ≠ "" then res ++ " AND " else res
    match compEntry c (natToString i) v b with
    | .ok (s, b') => compExpArrFields c t (i + 1) (res ++ s) b'
    | .error e => .error e

/-- Character loop when `$or`-style operands are strings. -/
def strJoin (c : Col) : List Char → Nat → String → String →
    Option Bindings → Except Err (String × Option Bindings)
  | [], _, _, acc, b => .ok (acc, b)
  | ch :: t, i, sep, acc, b =>
    let acc := if i > 0 then acc ++ sep else acc
    match strCompExp c (String.mk [ch]) b with
    | .ok (s, b') => strJoin c t (i + 1) sep (acc ++ s) b'
    | .error e => .error e

mutual
/-- Embedding of `_computeCompExp`.  An `ObjectId` renders as its hex
string; objects (and arrays, via their index keys) run the field loop;
values without enumerable properties yield the empty predicate. -/
def compExp (c : Col) (v : JVal) (b : Option Bindings) :
    Except Err (String × Option Bindings) :=
  match v with
  | .oid hex => .ok (hex, b)
  | .obj fs =>
    match compExpFields c fs "" b with
    | .ok (res, b') => .ok (if res = "" then "" else "(" ++ res ++ ")", b')
    | .error e => .error e
  | .arr xs =>
    match compExpArrFields c xs 0 "" b with
    | .ok (res, b') => .ok (if res = "" then "" else "(" ++ res ++ ")", b')
    | .error e => .error e
  | .str s => strCompExp c s b
  | _ => .ok ("", b)
termination_by sizeOf v

/-- The field loop of `_computeCompExp`: AND-separates entries (the
separator is appended before the entry is compiled, even if the entry
contributes nothing), dispatching `$`-prefixed top-level operators. -/
def compExpFields (c : Col) (fs : JFields) (res : String)
    (b : Option Bindings) : Except Err (String × Option Bindings) :=
  match fs with
  | .nil => .ok (res, b)
  | .cons prop pv t =>
    let res := if res ≠ "" then res ++ " AND " else res
    match
      (if jsStartsWith prop "$" then
        match prop with
        | "$or" =>
          match compExpJoin c pv " OR " b with
          | .ok (s, b') => .ok ("(" ++ s ++ ")", b')
          | .error e => .error e
        | "$and" =>
          match compExpJoin c pv " AND " b with
          | .ok (s, b') => .ok ("(" ++ s ++ ")", b')
          | .error e => .error e
        | "$not" =>
          match pv with
          | .arr xs =>
            match compExpList c xs 0 " AND " "" b with
            | .ok (s, b') => .ok ("NOT(" ++ s ++ ")", b')
            | .error e => .error e
          | other =>
            match compExp c other b with
            | .ok (s, b') => .ok ("NOT(" ++ s ++ ")", b')
            | .error e => .error e
        | "$nor" =>
          match compExpJoin c pv " OR " b with
          | .ok (s, b') => .ok ("NOT(" ++ s ++ ")", b')
          | .error e => .error e
        | _ => .error (.unknownTopOperator prop)
      else compEntry c prop pv b) with
    | .ok (s, b') => compExpFields c t (res ++ s) b'
    | .error e => .error e
termination_by sizeOf fs

/-- The `for (let i = 0; i < propValue.length; i++)` join used by
`$or`/`$and`/`$nor`: arrays iterate their elements, strings their
characters, anything else has no `length` and contributes nothing. -/
def compExpJoin (c : Col) (pv : JVal) (sep : String)
    (b : Option Bindings) : Except Err (String × Option Bindings) :=
  match pv with
  | .arr xs => compExpList c xs 0 sep "" b
  | .str s => strJoin c s.data 0 sep "" b
  | _ => .ok ("", b)
termination_by sizeOf pv

/-- Element loop over a JS array for `$or`/`$and`/`$not`/`$nor`. -/
def compExpList (c : Col) (xs : JList) (i : Nat) (sep : String)
    (acc : String) (b : Option Bindings) :
    Except Err (String × Option Bindings) :=
  match xs with
  | .nil => .ok (acc, b)
  | .cons v t =>
    let acc := if i > 0 then acc ++ sep else acc
    match compExp c v b with
    | .ok (s, b') => compExpList c t (i + 1) sep (acc ++ s) b'
    | .error e => .error e
termination_by sizeOf xs
end

/-- Embedding of `_computeCompStartExp`: the filter must be falsy-free
and object-like (or an `ObjectId`). -/
def computeCompStartExp (c : Col) (compObj : JVal) (b : Option Bindings) :
    Except Err (String × Option Bindings) :=
  if !truthy compObj || !(isObjectLike compObj) then
    .error .invalidFilterObject
  else compExp c compObj b

/-- Embedding of `_computeWhere`.  Note the identity shortcut calls
`_computeWherePk` twice on the same bindings map: once for the length
test and once for the returned text. -/
def computeWhere (c : Col) (filter : JVal) (b : Option Bindings) :
    Except Err (String × Option Bindings) :=
  if !truthy filter || isEmptyObject filter then .ok ("", b)
  else if !isObjectLike filter then .error .invalidWhereInput
  else
    let fid := propOf filter "_id"
    if truthy fid && idTypeObject fid then
      match computeWherePk c b fid with
      | .ok (whereExp, b') =>
        if whereExp.data.length > 0 then
          match computeWherePk c b' fid with
          | .ok (w2, b'') => .ok (" WHERE (" ++ w2 ++ ")", b'')
          | .error e => .error e
        else .ok ("", b')
      | .error e => .error e
    else
      match computeCompStartExp c filter b with
      | .ok (cond, b') =>
        if cond = "" then .ok ("", b')
        else .ok (" WHERE " ++ cond, b')
      | .error e => .error e

/-- Canonical name of the k-th binding stored under one base name
(`base`, `base2`, `base3`, ...). -/
def canonName (base : String) (k : Nat) : String :=
  if k = 1 then base else base ++ natToString k

/-- Entries of a bindings map after storing `vals` in order under one
base name, the first at position `s`. -/
def canonList (base : String) : List JVal → Nat → List (String × JVal)
  | [], _ => []
  | v :: t, k => (canonName base k, v) :: canonList base t (k + 1)

/-- The first `n` canonical binding names. -/
def canonNames (base : String) (n : Nat) : List String :=
  (List.range n).map fun j => canonName base (j + 1)

/-- Comma-joined member text produced by the `$in` element loop for `k`
further elements once `cnt` are already stored. -/
def memberText (base : String) : Nat → Nat → String
  | _, 0 => ""
  | cnt, k + 1 =>
    (if cnt > 0 then "," else "") ++ canonName base (cnt + 1) ++
      memberText base (cnt + 1) k

/-! ### Row marshalling (`_marshallObjectIntoRow` and friends) -/

mutual
/-- Embedding of the static `_fixTypesBeforeInsert`: falsy values and
primitives pass through, an `ObjectId` becomes its string form (no
prefix, since `OBJECTID_ENABLED` is false), a `Date` its ISO string,
and arrays/objects are rewritten element-wise/field-wise in place. -/
def fixTypesBeforeInsert : JVal → JVal
  | .oid hex =>
    .str ((if OBJECTID_ENABLED then OBJECTID_PREFIX else "") ++ hex)
  | .date iso => .str iso
  | .arr xs => .arr (fixBeforeList xs)
  | .obj fs => .obj (fixBeforeFields fs)
  | v => v

/-- Element loop of `_fixTypesBeforeInsert` over an array. -/
def fixBeforeList : JList → JList
  | .nil => .nil
  | .cons v t => .cons (fixTypesBeforeInsert v) (fixBeforeList t)

/-- Field loop of `_fixTypesBeforeInsert` over an object. -/
def fixBeforeFields : JFields → JFields
  | .nil => .nil
  | .cons k v t => .cons k (fixTypesBeforeInsert v) (fixBeforeFields t)
end

mutual
/-- Embedding of the static `_fixTypesAfterRead` with
`OBJECTID_ENABLED` false: an object with a truthy string `_id` gets
that `_id` wrapped into an `ObjectId` and is returned WITHOUT the
other fields being visited; a string with the `_obid_` prefix becomes
an `ObjectId` of its suffix; arrays and other objects are rewritten in
place; everything else passes through. -/
def fixTypesAfterRead : JVal → JVal
  | .obj fs =>
    match jGet fs "_id" with
    | .str s =>
      if s = "" then .obj (fixAfterFields fs)
      else .obj (jSet fs "_id" (.oid s))
    | _ => .obj (fixAfterFields fs)
  | .str s =>
    if jsStartsWith s OBJECTID_PREFIX then
      .oid (jsDrop s OBJECTID_PREFIX.length)
    else .str s
  | .arr xs => .arr (fixAfterList xs)
  | v => v

/-- Element loop of `_fixTypesAfterRead` over an array. -/
def fixAfterList : JList → JList
  | .nil => .nil
  | .cons v t => .cons (fixTypesAfterRead v) (fixAfterList t)

/-- Field loop of `_fixTypesAfterRead` over an object. -/
def fixAfterFields : JFields → JFields
  | .nil => .nil
  | .cons k v t => .cons k (fixTypesAfterRead v) (fixAfterFields t)
end

/-- `Object.assign(row, src)`: each source field overwrites in place or
appends. -/
def objectAssign : JFields → JFields → JFields
  | row, .nil => row
  | row, .cons k v t => objectAssign (jSet row k v) t

/-- Embedding of `_setPK`: composite keys spread the own enumerable
fields of `obj._id` into a fresh row (spreading a primitive gives
nothing; string index spreading is not modelled — no claim uses a
string `_id` on a composite-key table); a simple key stores the
string coercion of `obj._id` under the key column. -/
def setPK (c : Col) (obj : JFields) : JFields :=
  if c.hasCompositeKeys then (innerFields (jGet obj "_id")).getD .nil
  else .cons KVID (.str (jsToString (jGet obj "_id"))) .nil

/-- Embedding of `_marshallObjectIntoRow`: the key columns, then
`Object.assign` of the type-fixed document without its `_id`. -/
def marshallObjectIntoRow (c : Col) (obj : JFields) : JFields :=
  objectAssign (setPK c obj) (fixBeforeFields (jErase obj "_id"))

/-- Embedding of the static `_unmarshalObjectFromRow`.  The method is
static, so `this._hasCompositeKeys` is `undefined` and the
composite-key branch is dead code (it also references the bare
identifiers `f` and `r`, which would throw): every row takes the
simple-key branch, which (with `OBJECTID_ENABLED` false) moves the key
column's value under `_id` (appended, `undefined` when the row has no
key column) and deletes the key column. -/
def unmarshalObjectFromRow (row : JFields) : JFields :=
  jErase (jSet row "_id" (jGet row KVID)) KVID

/-- The read path of `fetchBatch`:
`_unmarshalObjectFromRow(_fixTypesAfterRead(row))` applied to a
marshalled document. -/
def roundTrip (c : Col) (doc : JFields) : JVal :=
  match fixTypesAfterRead (.obj (marshallObjectIntoRow c doc)) with
  | .obj fs => .obj (unmarshalObjectFromRow fs)
  | v => v

mutual
/-- Values the type-fixing passes leave alone: no `Date`, no
`ObjectId`, no string with the `_obid_` prefix, and no nested object
carrying an `_id` field (whose truthy-string case the read pass would
rewrite). -/
def fixFree : JVal → Bool
  | .date _ => false
  | .oid _ => false
  | .str s => !(jsStartsWith s OBJECTID_PREFIX)
  | .arr xs => fixFreeList xs
  | .obj fs =>
    (match jLookup fs "_id" with
     | none => true
     | some _ => false) && fixFreeFields fs
  | _ => true

/-- `fixFree` over array elements. -/
def fixFreeList : JList → Bool
  | .nil => true
  | .cons v t => fixFree v && fixFreeList t

/-- `fixFree` over object field values. -/
def fixFreeFields : JFields → Bool
  | .nil => true
  | .cons _ v t => fixFree v && fixFreeFields t
end

/-! ### The projection compiler (`_conputeProjection`) -/

/-- The entries of a fields object in iteration order. -/
def JFields.toList : JFields → List (String × JVal)
  | .nil => []
  | .cons k v t => (k, v) :: toList t

/-- JS `value == 1 || value == true` for the modelled values (for every
modelled value the two loose tests coincide).  String operands are
modelled for the canonical form `"1"` only; exotic numeric strings and
array coercions (`[1] == 1`) are not modelled — no claim uses them. -/
def prjIncMark : JVal → Bool
  | .num n => n == 1
  | .bool b => b
  | .str s => s == "1"
  | _ => false

/-- JS `value == 0 || value == false` (note `null == 0` and
`undefined == 0` are false in JS).  String operands are modelled for
the canonical forms `"0"` and `""` only. -/
def prjExcMark : JVal → Bool
  | .num n => n == 0
  | .bool b => !b
  | .str s => s == "0" || s == ""
  | _ => false

/-- Embedding of `_computePrjObjDeep` (fuel-recursive on the dot depth
of the path; the top-level mutation is returned functionally).  A dot
at index `> 0` splits the path and recurses into the existing nested
object (or a fresh one); mutating a primitive slot is a JS no-op; a
present dotless slot is left alone (the JS `Error(...)` on a duplicate
is constructed but never thrown). -/
def computePrjObjDeepF : Nat → JFields → String → JVal → JFields
  | 0, prjObj, _, _ => prjObj
  | fuel + 1, prjObj, prop, value =>
    let i := prop.data.findIdx (· = '.')
    if 0 < i ∧ i < prop.data.length then
      let propBase : String := ⟨prop.data.take i⟩
      let propChild : String := ⟨prop.data.drop (i + 1)⟩
      match jGet prjObj propBase with
      | .undef => jSet prjObj propBase
          (.obj (computePrjObjDeepF fuel .nil propChild value))
      | .obj fs => jSet prjObj propBase
          (.obj (computePrjObjDeepF fuel fs propChild value))
      | _ => prjObj
    else
      if jGet prjObj prop = .undef then jSet prjObj prop value else prjObj

/-- `_computePrjObjDeep` with enough fuel for every dot in the path. -/
def computePrjObjDeep (prjObj : JFields) (prop : String) (value : JVal) :
    JFields :=
  computePrjObjDeepF (prop.data.length + 1) prjObj prop value

/-- The classification loop of `_conputeProjection` over the projection
entries: skips `_id`, inclusion marks conflict with a running exclusion
classification and vice versa, and any other value silently classifies
as an inclusion (resetting `prjType` to 1 with no conflict check). -/
def prjClassLoop : JFields → Int → JFields → Except Err (Int × JFields)
  | .nil, prjType, prjObj => .ok (prjType, prjObj)
  | .cons prop v t, prjType, prjObj =>
    if prop = "_id" then prjClassLoop t prjType prjObj
    else if prjIncMark v then
      if prjType = -1 then .error .projectionConflict
      else prjClassLoop t 1 (computePrjObjDeep prjObj prop v)
    else if prjExcMark v then
      if prjType = 1 then .error .projectionConflict
      else prjClassLoop t (-1) (computePrjObjDeep prjObj prop v)
    else prjClassLoop t 1 (computePrjObjDeep prjObj prop v)

/-- A Mongoose schema path as the exclusion block reads it.  Only
scalar instance types are representable: the `Array`-with-subschema and
`Embedded` recursions of `_computePrjObjDeepExcl` are outside the
modelled state space (no claim involves them). -/
structure SchemaPath : Type where
  name : String
  instanceType : String
  deriving DecidableEq, Repr

/-- The schema (`schema.paths`, with `schema.tree` present). -/
structure Schema : Type where
  paths : List SchemaPath
  deriving DecidableEq, Repr

/-- The exclusion-completion block of `_conputeProjection`: walks the
schema paths, skipping `_id`/`id`/`__v` and paths excluded in the
projection, defaulting scalar paths to an inclusion mark; a
non-scalar path is the unsupported-type error. -/
def prjExclBlock (projection : JVal) :
    List SchemaPath → JFields → Except Err JFields
  | [], prjObj => .ok prjObj
  | p :: t, prjObj =>
    if p.name = "_id" || p.name = "id" || p.name = "__v" ||
        prjExcMark (propOf projection p.name) then
      prjExclBlock projection t prjObj
    else if p.instanceType = "Date" || p.instanceType = "ObjectId" ||
        p.instanceType = "Number" || p.instanceType = "String" ||
        p.instanceType = "Boolean" then
      if jGet prjObj p.name = .undef then
        prjExclBlock projection t (jSet prjObj p.name (.num 1))
      else prjExclBlock projection t prjObj
    else .error .unsupportedSchemaType

/-- Embedding of `_computePrjDeep` for scalar field values: numbers
render as themselves, `$`-prefixed strings as the translated path they
name, other strings quoted.  `null`/`undefined`/booleans hit the JS
unsupported-type throw.  The nested-object branch (including the
`$`-operator sub-language of `_computePrjOperators`) is not modelled —
no claim reaches it — and is mapped to the invalid-operand error. -/
def computePrjDeep (c : Col) (propChild : JVal) : Except Err String :=
  match propChild with
  | .num n => .ok (jsToString (.num n))
  | .str s =>
    if jsStartsWith s "$" then .ok (computeDbProp c (jsDrop s 1))
    else .ok ("'" ++ s ++ "'")
  | .bool _ => .error .typeError
  | .null => .error .typeError
  | .undef => .error .typeError
  | _ => .error .invalidProjectionOperand

/-- The render loop of `_conputeProjection` over the computed
projection object: the separator is appended before the
exclusion-`continue` check, inclusion marks render the translated
path, and any other value renders through `_computePrjDeep`. -/
def prjRenderLoop (c : Col) : JFields → String → Except Err String
  | .nil, res => .ok res
  | .cons prop v t, res =>
    let res := if res ≠ "" then res ++ ", " else res
    if prjExcMark v then prjRenderLoop c t res
    else if prjIncMark v then
      prjRenderLoop c t (res ++ computeDbProp c prop ++ " AS " ++ prop)
    else
      match computePrjDeep c v with
      | .ok s => prjRenderLoop c t (res ++ s ++ " AS " ++ prop)
      | .error e => .error e

/-- Embedding of `_conputeProjection`.  A falsy projection is `*`; the
JS `if (! typeof projection === 'object')` guard compares a boolean to
a string and can never throw, so any truthy value proceeds (`for...in`
over a non-object iterates nothing; string index iteration is not
modelled — no claim projects a string).  After classification, an
exclusion (or empty) projection needs the schema to materialise the
implicit inclusions; the result is rendered and the key columns are
prepended when `_id` is absent (or loosely equal to `undefined`,
i.e. `null`) or marked as an inclusion. -/
def conputeProjection (c : Col) (projection : JVal)
    (schema : Option Schema) : Except Err String :=
  if !truthy projection then .ok "*"
  else
    let fs := (innerFields projection).getD .nil
    match prjClassLoop fs 0 .nil with
    | .error e => .error e
    | .ok (prjType, prjObj) =>
      match ((if prjType = -1 ∨ prjType = 0 then
          match schema with
          | none => .error .missingSchema
          | some sch => prjExclBlock projection sch.paths prjObj
        else .ok prjObj) : Except Err JFields) with
      | .error e => .error e
      | .ok prjObj2 =>
        match prjRenderLoop c prjObj2 "" with
        | .error e => .error e
        | .ok res =>
          if propOf projection "_id" = .undef ∨
              propOf projection "_id" = .null ∨
              prjIncMark (propOf projection "_id") then
            .ok (jsJoin ", " (c.primaryKeyList.map fun k =>
              computeDbProp c k ++ " AS " ++ k) ++ ", " ++ res)
          else .ok res

/-! ### The find cursor (`OrcoosFindCursor`)

The cursor is modelled over an abstract document type `α`: a batch is
the list of documents its rows unmarshal to (row decoding itself is the
round-trip concern, not the cursor's).  The store behind
`queryIterable` is a list of generator steps, each `gen.next()` call
either throwing (`.error ()`) or producing a batch's rows (`.ok rows`);
an exhausted list is the generator's done signal (a batch without
rows).  `queryIterable` itself may throw on the initial call
(`Store.startup = .error ()`).  Consuming a startup or a step is
exactly one store call, so a run that leaves `gen` (and the
prepared-statement `cache`) untouched made no store call. -/

/-- Outcomes the store has in stock for one query: the result of
`queryIterable`, and on success the successive `gen.next()` outcomes. -/
structure Store (α : Type) : Type where
  startup : Except Unit (List (Except Unit (List α)))

/-- Mutable state of an `OrcoosFindCursor` together with the shared
prepared-statement cache (`collection.db.prepStmtCache`, modelled by
its key set in insertion order). -/
structure CursorS (α : Type) : Type where
  documents : List α
  isStarted : Bool
  isClosed : Bool
  gen : Option (List (Except Unit (List α)))
  cache : List String
  stmt : String
  maxLimit : Nat

/-- `close()`: sets the closed flag. -/
def close {α : Type} (c : CursorS α) : CursorS α :=
  { c with isClosed := true }

/-- A cursor as built by the query methods, before any fetch:
empty buffer, not started, not closed, no generator, sharing a cache
that already holds `cch` and capped at `maxLimit = k`. -/
def freshCursor (α : Type) (cch : List String) (stm : String) (k : Nat) :
    CursorS α :=
  ⟨[], false, false, none, cch, stm, k⟩

/-- Embedding of `fetchBatch()`: no-op when closed; on first use marks
the cursor started, consults/fills the prepared-statement cache and
runs `queryIterable`, clearing the whole cache and failing when that
initial call throws; then one `gen.next()` step: an absent or exhausted
generator closes the cursor, a throwing step propagates the failure
(without touching the cache), and a batch with rows replaces the
document buffer. -/
def fetchBatch {α : Type} (st : Store α) (c : CursorS α) :
    CursorS α × Option Err :=
  if c.isClosed then (c, none)
  else
    match
      ((if c.isStarted then .ok c
        else
          let cch := if c.cache.contains c.stmt then c.cache
            else c.cache ++ [c.stmt]
          match st.startup with
          | .ok steps =>
            .ok { c with isStarted := true, cache := cch,
                         gen := some steps }
          | .error () =>
            .error { c with isStarted := true, cache := [] }) :
        Except (CursorS α) (CursorS α)) with
    | .error cErr => (cErr, some .storeStartFailed)
    | .ok c1 =>
      match c1.gen with
      | none => (close c1, none)
      | some [] => (close c1, none)
      | some (step :: rest) =>
        match step with
        | .error () => ({ c1 with gen := some rest },
            some .storeMidStreamFailed)
        | .ok rows => ({ c1 with gen := some rest, documents := rows },
            none)

/-- Embedding of the `toArray()` drain loop (`_documents?.length >= 0`
is always true: the buffer is always an array): per round it checks
the cap, pushes the buffer, fetches, and stops when the cursor closed.
The outer `Option` is induction fuel only: `none` marks fuel
exhaustion, never a result. -/
def toArrayLoop {α : Type} (st : Store α) :
    Nat → CursorS α → List α → Option (Except Err (List α))
  | 0, _, _ => none
  | fuel + 1, c, acc =>
    if acc.length + c.documents.length > c.maxLimit then
      some (.error .resultLimitExceeded)
    else
      match fetchBatch st c with
      | (_, some e) => some (.error e)
      | (c', none) =>
        if c'.isClosed then some (.ok (acc ++ c.documents))
        else toArrayLoop st fuel c' (acc ++ c.documents)

/-- `toArray()` from an empty result array. -/
def toArray {α : Type} (st : Store α) (fuel : Nat) (c : CursorS α) :
    Option (Except Err (List α)) :=
  toArrayLoop st fuel c []

/-- Embedding of `next()`: shift the buffer, fetching one batch when it
is empty; the do/while exits (returning the `null` sentinel, here
`none`) when the buffer is still empty after the fetch. -/
def next {α : Type} (st : Store α) (c : CursorS α) :
    Except Err (Option α × CursorS α) :=
  match c.documents with
  | d :: rest => .ok (some d, { c with documents := rest })
  | [] =>
    match fetchBatch st c with
    | (_, some e) => .error e
    | (c', none) =>
      match c'.documents with
      | d :: rest => .ok (some d, { c' with documents := rest })
      | [] => .ok (none, c')

/-- Embedding of `hasNext()` (same do/while shape as `next()`). -/
def hasNext {α : Type} (st : Store α) (c : CursorS α) :
    Except Err (Bool × CursorS α) :=
  match c.documents with
  | _ :: _ => .ok (true, c)
  | [] =>
    match fetchBatch st c with
    | (_, some e) => .error e
    | (c', none) =>
      match c'.documents with
      | _ :: _ => .ok (true, c')
      | [] => .ok (false, c')

/-- The cursor operations whose effect on the state we track. -/
inductive COp : Type where
  | fetch : COp
  | nxt : COp
  | hnext : COp
  | cls : COp
  deriving DecidableEq, Repr

/-- Resulting cursor state of one operation (on a failing fetch, the
state the mutations left behind at the throw). -/
def stateAfter {α : Type} (st : Store α) (c : CursorS α) : COp → CursorS α
  | .fetch => (fetchBatch st c).1
  | .nxt =>
    match c.documents with
    | _ :: rest => { c with documents := rest }
    | [] =>
      match fetchBatch st c with
      | (c', some _) => c'
      | (c', none) =>
        match c'.documents with
        | _ :: rest => { c' with documents := rest }
        | [] => c'
  | .hnext =>
    match c.documents with
    | _ :: _ => c
    | [] => (fetchBatch st c).1
  | .cls => close c

/-! ### Supporting lemmas -/

/-- Induction principle for `JFields` alone (values are not recursed into). -/
@[induction_eliminator]
theorem jfieldsInduction {motive : JFields → Prop}
    (nil : motive .nil)
    (cons : ∀ k v t, motive t → motive (.cons k v t)) :
    ∀ fs, motive fs
  | .nil => nil
  | .cons k v t => cons k v t (jfieldsInduction nil cons t)

/-- Induction principle for `JList` alone (elements are not recursed into). -/
@[induction_eliminator]
theorem jlistInduction {motive : JList → Prop}
    (nil : motive .nil)
    (cons : ∀ v t, motive t → motive (.cons v t)) :
    ∀ xs, motive xs
  | .nil => nil
  | .cons v t => cons v t (jlistInduction nil cons t)

theorem jLookup_jSet_self (b : Bindings) (k : String) (v : JVal) :
    jLookup (jSet b k v) k = some v := by
  induction b using jfieldsInduction with
  | nil => simp [jSet, jLookup]
  | cons k0 v0 t ih =>
    by_cases h : k0 = k
    · subst h; simp [jSet, jLookup]
    · simp [jSet, h, jLookup, ih]

theorem jLookup_jSet_ne (b : Bindings) {k k' : String} (v : JVal)
    (h : k ≠ k') : jLookup (jSet b k v) k' = jLookup b k' := by
  induction b using jfieldsInduction with
  | nil => simp [jSet, jLookup, h]
  | cons k0 v0 t ih =>
    by_cases h0 : k0 = k
    · subst h0; simp [jSet, jLookup, h, ih]
    · simp [jSet, h0, jLookup, ih]

theorem jGet_jSet_self (b : Bindings) (k : String) (v : JVal) :
    jGet (jSet b k v) k = v := by
  simp [jGet, jLookup_jSet_self]

theorem storeBindingLoop_ok (b : Bindings) (name : String) (v : JVal) :
    ∀ fuel i n b', storeBindingLoop b name v i fuel = .ok (n, b') →
      truthy (jGet b n) = false ∧ b' = jSet b n v := by
  intro fuel
  induction fuel with
  | zero => intro i n b' h; simp [storeBindingLoop] at h
  | succ fuel ih =>
    intro i n b' h
    rw [storeBindingLoop] at h
    by_cases ht : truthy (jGet b (name ++ natToString i))
    · rw [if_pos ht] at h
      exact ih (i + 1) n b' h
    · rw [if_neg ht] at h
      obtain ⟨rfl, rfl⟩ := by simpa using h
      exact ⟨by simpa using ht, rfl⟩

theorem storeBindingLoop_exhaust (b : Bindings) (name : String) (v : JVal) :
    ∀ fuel i, (∀ j, i ≤ j → j < i + fuel →
        truthy (jGet b (name ++ natToString j)) = true) →
      storeBindingLoop b name v i fuel = .error .tooManyBindings := by
  intro fuel
  induction fuel with
  | zero => intro i _; simp [storeBindingLoop]
  | succ fuel ih =>
    intro i hall
    rw [storeBindingLoop,
      if_pos (hall i (Nat.le_refl i) (by omega))]
    exact ih (i + 1) fun j hj hj' => hall j (by omega) (by omega)

theorem storeBinding_ok (b : Bindings) (name : String) (v : JVal)
    (n : String) (b' : Bindings)
    (h : storeBinding b name v = .ok (n, b')) :
    truthy (jGet b n) = false ∧ b' = jSet b n v := by
  unfold storeBinding at h
  by_cases hb : truthy (jGet b ("$" ++ jsReplaceFirstDot name))
  · simp [hb] at h
    exact storeBindingLoop_ok b _ v _ 2 n b' h
  · simp [hb] at h
    obtain ⟨rfl, rfl⟩ := h
    exact ⟨by simpa using hb, rfl⟩

theorem string_append_left_cancel {p s t : String} (h : p ++ s = p ++ t) :
    s = t := by
  apply String.ext
  have hd := congrArg String.data h
  simpa [String.data_append] using hd

theorem splitOnChar_no_occ {c : Char} : ∀ {l : List Char}, c ∉ l →
    splitOnChar c l = [l] := by
  intro l
  induction l with
  | nil => intro _; rfl
  | cons x xs ih =>
    intro h
    have hx : ¬x = c := fun he => h (he ▸ List.mem_cons_self x xs)
    have ht : c ∉ xs := fun hm => h (List.mem_cons_of_mem x hm)
    simp [splitOnChar, ih ht, hx]

theorem jsReplaceFirstDot_no_dot {s : String} (h : '.' ∉ s.data) :
    jsReplaceFirstDot s = s := by
  simp [jsReplaceFirstDot, jsSplit, splitOnChar_no_occ h]

theorem jSet_absent : ∀ (b : Bindings) (n : String) (v : JVal),
    jLookup b n = none → jSet b n v = jAppend b (.cons n v .nil) := by
  intro b
  induction b using jfieldsInduction with
  | nil => intro n v _; rfl
  | cons k w t ih =>
    intro n v h
    by_cases hk : k = n
    · simp [jLookup, hk] at h
    · simp [jSet, hk, jAppend, ih n v (by simpa [jLookup, hk] using h)]

theorem stripComma_cons (x r : String) (hx : x.data = ',' :: r.data)
    (t : String) :
    (if jsStartsWith (x ++ t) "," then jsDrop (x ++ t) 1 else (x ++ t)) =
      r ++ t := by
  have h1 : jsStartsWith (x ++ t) "," = true := by
    simp only [jsStartsWith, String.data_append, hx]
    rw [List.isPrefixOf_iff_prefix]
    exact List.IsPrefix.trans ⟨[], rfl⟩ (List.prefix_append _ _)
  rw [h1]
  simp only [if_true]
  apply String.ext
  simp [jsDrop, String.data_append, hx]

theorem jAppend_nil : ∀ b : JFields, jAppend b .nil = b := by
  intro b
  induction b using jfieldsInduction with
  | nil => rfl
  | cons k v t ih => simp [jAppend, ih]

theorem jAppend_assoc : ∀ a b c : JFields,
    jAppend (jAppend a b) c = jAppend a (jAppend b c) := by
  intro a b c
  induction a using jfieldsInduction with
  | nil => rfl
  | cons k v t ih => simp [jAppend, ih]

theorem jLookup_jAppend : ∀ (b g : JFields) (n : String),
    jLookup (jAppend b g) n = (jLookup b n).or (jLookup g n) := by
  intro b g n
  induction b using jfieldsInduction with
  | nil => simp [jAppend, jLookup]
  | cons k v t ih =>
    by_cases hk : k = n
    · simp [jAppend, jLookup, hk]
    · simp [jAppend, jLookup, hk, ih]

theorem jAppend_ofList (a b : List (String × JVal)) :
    jAppend (JFields.ofList a) (JFields.ofList b) =
      JFields.ofList (a ++ b) := by
  induction a with
  | nil => simp [JFields.ofList, jAppend]
  | cons e t ih => simp [JFields.ofList, jAppend, ih]

theorem jLookup_ofList_map_eq {fs : List String} {nm : String → String}
    {val : String → JVal}
    (hinj : ∀ f ∈ fs, ∀ g ∈ fs, nm f = nm g → f = g) :
    ∀ f ∈ fs,
      jLookup (JFields.ofList (fs.map fun g => (nm g, val g))) (nm f) =
        some (val f) := by
  induction fs with
  | nil => intro f hf; exact absurd hf (List.not_mem_nil f)
  | cons g t ih =>
    intro f hf
    by_cases he : nm g = nm f
    · have : g = f := hinj g (List.mem_cons_self g t) f hf he
      subst this
      simp [JFields.ofList, jLookup]
    · have hft : f ∈ t := by
        rcases List.mem_cons.mp hf with h | h
        · exact absurd (congrArg nm h.symm) he
        · exact h
      simp only [List.map_cons, JFields.ofList, jLookup, if_neg he]
      exact ih
        (fun a ha b hb => hinj a (List.mem_cons_of_mem g ha)
          b (List.mem_cons_of_mem g hb)) f hft

theorem jLookup_ofList_map_none {fs : List String} {nm : String → String}
    {val : String → JVal} {n : String}
    (h : ∀ f ∈ fs, nm f ≠ n) :
    jLookup (JFields.ofList (fs.map fun g => (nm g, val g))) n = none := by
  induction fs with
  | nil => simp [JFields.ofList, jLookup]
  | cons g t ih =>
    simp only [List.map_cons, JFields.ofList, jLookup,
      if_neg (h g (List.mem_cons_self g t))]
    exact ih fun f hf => h f (List.mem_cons_of_mem g hf)

theorem jsJoin_head_len (sep x : String) (rest : List String)
    (hx : x.data.length > 0) :
    (jsJoin sep (x :: rest)).data.length > 0 := by
  cases rest with
  | nil => simpa [jsJoin] using hx
  | cons y t =>
    simp [jsJoin, String.data_append, List.length_append]
    exact Or.inl hx

theorem storeBinding_base_free (b : Bindings) (name : String) (v : JVal)
    (h : truthy (jGet b ("$" ++ jsReplaceFirstDot name)) = false) :
    storeBinding b name v =
      .ok ("$" ++ jsReplaceFirstDot name,
        jSet b ("$" ++ jsReplaceFirstDot name) v) := by
  simp [storeBinding, h]

theorem storeBinding_suffix2 (b : Bindings) (name : String) (v : JVal)
    (h1 : truthy (jGet b ("$" ++ jsReplaceFirstDot name)) = true)
    (h2 : truthy (jGet b ("$" ++ jsReplaceFirstDot name ++ "2")) = false) :
    storeBinding b name v =
      .ok ("$" ++ jsReplaceFirstDot name ++ "2",
        jSet b ("$" ++ jsReplaceFirstDot name ++ "2") v) := by
  have e : MAX_BINDING_NAME - 2 = 997 + 1 := rfl
  simp only [storeBinding, h1, Bool.not_true, Bool.false_eq_true, if_false]
  rw [e, storeBindingLoop]
  simp [show (natToString 2) = "2" from rfl, h2]

theorem wherePkFields_pass1 (id : JVal) :
    ∀ (fs : List String) (b : Bindings),
      (∀ f ∈ fs, jLookup b ("$id_" ++ f) = none) →
      (∀ f ∈ fs, jsReplaceFirstDot ("id_" ++ f) = "id_" ++ f) →
      fs.Nodup →
      wherePkFields (some b) id fs =
        .ok (fs.map (fun f => T ++ "." ++ f ++ " = " ++ ("$id_" ++ f)),
          some (jAppend b (JFields.ofList
            (fs.map fun f => ("$id_" ++ f, propOf id f))))) := by
  intro fs
  induction fs with
  | nil => intro b _ _ _; simp [wherePkFields, JFields.ofList, jAppend_nil]
  | cons f t ih =>
    intro b habs hrep hnd
    have hf0 : f ∈ f :: t := List.mem_cons_self f t
    have hbase : ("$" ++ jsReplaceFirstDot ("id_" ++ f) : String) =
        "$id_" ++ f := by
      rw [hrep f hf0, ← String.append_assoc]
      rfl
    have hsb : storeBinding b ("id_" ++ f) (propOf id f) =
        .ok ("$id_" ++ f,
          jAppend b (.cons ("$id_" ++ f) (propOf id f) .nil)) := by
      have hfree : truthy (jGet b ("$" ++ jsReplaceFirstDot ("id_" ++ f))) =
          false := by
        rw [hbase]
        simp [jGet, habs f hf0, truthy]
      rw [storeBinding_base_free b _ _ hfree, hbase,
        jSet_absent b _ _ (habs f hf0)]
    have hnd' : t.Nodup := hnd.of_cons
    have hfnott : f ∉ t := (List.nodup_cons.mp hnd).1
    rw [show wherePkFields (some b) id (f :: t) =
        (match storeBindingOpt (some b) ("id_" ++ f) (propOf id f) with
         | .ok (n, b') =>
           (match wherePkFields b' id t with
            | .ok (parts, b'') =>
              .ok ((T ++ "." ++ f ++ " = " ++ n) :: parts, b'')
            | .error e => .error e)
         | .error e => .error e) from rfl]
    simp only [storeBindingOpt, hsb]
    rw [ih (jAppend b (.cons ("$id_" ++ f) (propOf id f) .nil))
      (fun g hg => by
        rw [jLookup_jAppend, habs g (List.mem_cons_of_mem f hg)]
        have hne : ("$id_" ++ f : String) ≠ "$id_" ++ g := fun he =>
          hfnott (string_append_left_cancel he ▸ hg)
        simp [jLookup, hne])
      (fun g hg => hrep g (List.mem_cons_of_mem f hg)) hnd']
    simp [jAppend_assoc, jAppend, JFields.ofList]

theorem wherePkFields_pass2 (id : JVal) :
    ∀ (fs : List String) (b : Bindings),
      (∀ f ∈ fs, jLookup b ("$id_" ++ f) = some (propOf id f)) →
      (∀ f ∈ fs, truthy (propOf id f) = true) →
      (∀ f ∈ fs, jLookup b ("$id_" ++ f ++ "2") = none) →
      (∀ f ∈ fs, jsReplaceFirstDot ("id_" ++ f) = "id_" ++ f) →
      fs.Nodup →
      wherePkFields (some b) id fs =
        .ok (fs.map (fun f => T ++ "." ++ f ++ " = " ++
            ("$id_" ++ f ++ "2")),
          some (jAppend b (JFields.ofList
            (fs.map fun f => ("$id_" ++ f ++ "2", propOf id f))))) := by
  intro fs
  induction fs with
  | nil => intro b _ _ _ _ _; simp [wherePkFields, JFields.ofList, jAppend_nil]
  | cons f t ih =>
    intro b hsome htru habs hrep hnd
    have hf0 : f ∈ f :: t := List.mem_cons_self f t
    have hbase : ("$" ++ jsReplaceFirstDot ("id_" ++ f) : String) =
        "$id_" ++ f := by
      rw [hrep f hf0, ← String.append_assoc]
      rfl
    have hsb : storeBinding b ("id_" ++ f) (propOf id f) =
        .ok ("$id_" ++ f ++ "2",
          jAppend b (.cons ("$id_" ++ f ++ "2") (propOf id f) .nil)) := by
      have htaken : truthy (jGet b ("$" ++ jsReplaceFirstDot ("id_" ++ f))) =
          true := by
        rw [hbase]
        simp [jGet, hsome f hf0, htru f hf0]
      have hfree : truthy
          (jGet b ("$" ++ jsReplaceFirstDot ("id_" ++ f) ++ "2")) = false := by
        rw [hbase]
        simp [jGet, habs f hf0, truthy]
      rw [storeBinding_suffix2 b _ _ htaken hfree, hbase,
        jSet_absent b _ _ (habs f hf0)]
    have hnd' : t.Nodup := hnd.of_cons
    have hfnott : f ∉ t := (List.nodup_cons.mp hnd).1
    rw [show wherePkFields (some b) id (f :: t) =
        (match storeBindingOpt (some b) ("id_" ++ f) (propOf id f) with
         | .ok (n, b') =>
           (match wherePkFields b' id t with
            | .ok (parts, b'') =>
              .ok ((T ++ "." ++ f ++ " = " ++ n) :: parts, b'')
            | .error e => .error e)
         | .error e => .error e) from rfl]
    simp only [storeBindingOpt, hsb]
    rw [ih (jAppend b (.cons ("$id_" ++ f ++ "2") (propOf id f) .nil))
      (fun g hg => by
        rw [jLookup_jAppend, hsome g (List.mem_cons_of_mem f hg)]
        simp)
      (fun g hg => htru g (List.mem_cons_of_mem f hg))
      (fun g hg => by
        rw [jLookup_jAppend, habs g (List.mem_cons_of_mem f hg)]
        have hne : ("$id_" ++ f ++ "2" : String) ≠ "$id_" ++ g ++ "2" := by
          intro he
          have h1 : ("$id_" ++ (f ++ "2") : String) = "$id_" ++ (g ++ "2") := by
            rw [← String.append_assoc, ← String.append_assoc]
            exact he
          have h2 : (f ++ "2" : String) = g ++ "2" := string_append_left_cancel h1
          have h3 : f = g := by
            apply String.ext
            have := congrArg String.data h2
            simp only [String.data_append] at this
            exact List.append_cancel_right this
          exact hfnott (h3 ▸ hg)
        simp [jLookup, hne])
      (fun g hg => hrep g (List.mem_cons_of_mem f hg)) hnd']
    simp [jAppend_assoc, jAppend, JFields.ofList]

theorem append_len_pos (a b : String) (h : 0 < a.data.length) :
    0 < (a ++ b).data.length := by
  simp [String.data_append, List.length_append]
  exact Or.inl h

theorem computeWhere_id_branch (c : Col) (v : JVal) (b : Option Bindings)
    (hv : truthy v = true) (hty : idTypeObject v = true) :
    computeWhere c (.obj (.cons "_id" v .nil)) b =
      (match computeWherePk c b v with
       | .ok (whereExp, b') =>
         if whereExp.data.length > 0 then
           match computeWherePk c b' v with
           | .ok (w2, b'') => .ok (" WHERE (" ++ w2 ++ ")", b'')
           | .error e => .error e
         else .ok ("", b')
       | .error e => .error e) := by
  have h1 : truthy (JVal.obj (.cons "_id" v .nil)) = true := rfl
  have h2 : isEmptyObject (JVal.obj (.cons "_id" v .nil)) = false := rfl
  have h3 : isObjectLike (JVal.obj (.cons "_id" v .nil)) = true := rfl
  have h4 : propOf (JVal.obj (.cons "_id" v .nil)) "_id" = v := by
    simp [propOf, jGet, jLookup]
  simp [computeWhere, h1, h2, h3, h4, hv, hty]

theorem computeWhere_id_simple (v : JVal)
    (hv : truthy v = true) (hty : idTypeObject v = true)
    (hs : truthy (.str (jsToString v)) = true) :
    computeWhere simpleCol (.obj (.cons "_id" v .nil)) (some .nil) =
      .ok (" WHERE (" ++ (T ++ "." ++ KVID ++ " = " ++ "$id2") ++ ")",
        some (.cons "$id" (.str (jsToString v))
          (.cons "$id2" (.str (jsToString v)) .nil))) := by
  rw [computeWhere_id_branch simpleCol v (some .nil) hv hty]
  show (match computeWherePk simpleCol
      (some (JFields.cons "$id" (.str (jsToString v)) .nil)) v with
    | .ok (w2, b'') =>
      (.ok (" WHERE (" ++ w2 ++ ")", b'') :
        Except Err (String × Option Bindings))
    | .error e => .error e) = _
  have hbase : ("$" ++ jsReplaceFirstDot "id" : String) = "$id" := rfl
  have hst : storeBinding (.cons "$id" (.str (jsToString v)) .nil) "id"
      (.str (jsToString v)) =
      .ok ("$id2", .cons "$id" (.str (jsToString v))
        (.cons "$id2" (.str (jsToString v)) .nil)) := by
    have h2 := storeBinding_suffix2
      (.cons "$id" (.str (jsToString v)) .nil) "id" (.str (jsToString v))
      (by rw [hbase]; simpa [jGet, jLookup] using hs)
      (by rw [hbase]
          simp [jGet, jLookup,
            show ("$id" : String) ≠ "$id" ++ "2" from by decide, truthy])
    rw [h2]
    rfl
  have h2' : computeWherePk simpleCol
      (some (.cons "$id" (.str (jsToString v)) .nil)) v =
      .ok (T ++ "." ++ KVID ++ " = " ++ "$id2",
        some (.cons "$id" (.str (jsToString v))
          (.cons "$id2" (.str (jsToString v)) .nil))) := by
    show (match storeBindingOpt (some (.cons "$id" (.str (jsToString v)) .nil))
        "id" (.str (jsToString v)) with
      | .ok (n, b') =>
        (.ok (T ++ "." ++ KVID ++ " = " ++ n, b') :
          Except Err (String × Option Bindings))
      | .error e => .error e) = _
    simp [storeBindingOpt, hst]
  rw [h2']

theorem computeWhere_id_composite (pk : List String) (idfs : JFields)
    (hdot : ∀ f ∈ pk, '.' ∉ f.data)
    (hnd : pk.Nodup)
    (hsuf : ∀ f ∈ pk, ∀ g ∈ pk, g ≠ f ++ "2") :
    (pk.filter (fun f => truthy (jGet idfs f)) ≠ [] →
      computeWhere ⟨true, pk⟩ (.obj (.cons "_id" (.obj idfs) .nil))
          (some .nil) =
        .ok (" WHERE (" ++ jsJoin " AND "
            ((pk.filter (fun f => truthy (jGet idfs f))).map
              (fun f => T ++ "." ++ f ++ " = " ++ ("$id_" ++ f ++ "2"))) ++
            ")",
          some (JFields.ofList (
            ((pk.filter (fun f => truthy (jGet idfs f))).map
              (fun f => ("$id_" ++ f, jGet idfs f))) ++
            ((pk.filter (fun f => truthy (jGet idfs f))).map
              (fun f => ("$id_" ++ f ++ "2", jGet idfs f))))))) ∧
    (pk.filter (fun f => truthy (jGet idfs f)) = [] →
      computeWhere ⟨true, pk⟩ (.obj (.cons "_id" (.obj idfs) .nil))
          (some .nil) =
        .ok ("", some .nil)) := by
  have hbranch := computeWhere_id_branch ⟨true, pk⟩ (.obj idfs) (some .nil)
    rfl rfl
  have hfil : pk.filter (fun f => truthy (propOf (.obj idfs) f)) =
      pk.filter (fun f => truthy (jGet idfs f)) := rfl
  have hrep : ∀ f ∈ pk.filter (fun f => truthy (jGet idfs f)),
      jsReplaceFirstDot ("id_" ++ f) = "id_" ++ f := by
    intro f hf
    apply jsReplaceFirstDot_no_dot
    rw [String.data_append]
    intro hmem
    rcases List.mem_append.mp hmem with h | h
    · exact absurd h (by decide)
    · exact hdot f (List.mem_of_mem_filter hf) h
  have hndF : (pk.filter (fun f => truthy (jGet idfs f))).Nodup :=
    hnd.filter _
  have hinj : ∀ (f g : String), ("$id_" ++ f : String) = "$id_" ++ g →
      f = g := fun f g h => string_append_left_cancel h
  constructor
  · intro hne
    rw [hbranch]
    have hp1 := wherePkFields_pass1 (.obj idfs)
      (pk.filter (fun f => truthy (jGet idfs f))) .nil
      (fun f _ => rfl) hrep hndF
    have hpk1 : computeWherePk ⟨true, pk⟩ (some .nil) (.obj idfs) =
        .ok (jsJoin " AND "
            ((pk.filter (fun f => truthy (jGet idfs f))).map
              (fun f => T ++ "." ++ f ++ " = " ++ ("$id_" ++ f))),
          some (JFields.ofList
            ((pk.filter (fun f => truthy (jGet idfs f))).map
              (fun f => ("$id_" ++ f, jGet idfs f))))) := by
      show (match wherePkFields (some JFields.nil) (.obj idfs)
          (pk.filter (fun f => truthy (propOf (.obj idfs) f))) with
        | .ok (parts, b') =>
          (.ok (jsJoin " AND " parts, b') :
            Except Err (String × Option Bindings))
        | .error e => .error e) = _
      rw [hfil, hp1]
      rfl
    have hner := List.exists_cons_of_ne_nil hne
    have hlen : (jsJoin " AND "
        ((pk.filter (fun f => truthy (jGet idfs f))).map
          (fun f => T ++ "." ++ f ++ " = " ++ ("$id_" ++ f)))).data.length
          > 0 := by
      obtain ⟨f₀, rest, hq⟩ := hner
      rw [hq, List.map_cons]
      exact jsJoin_head_len " AND " _ _
        (append_len_pos _ _ (append_len_pos _ _ (append_len_pos _ _
          (by decide))))
    rw [hpk1]
    show (if (jsJoin " AND "
        ((pk.filter (fun f => truthy (jGet idfs f))).map
          (fun f => T ++ "." ++ f ++ " = " ++ ("$id_" ++ f)))).data.length
          > 0 then
      (match computeWherePk ⟨true, pk⟩
          (some (JFields.ofList
            ((pk.filter (fun f => truthy (jGet idfs f))).map
              (fun f => ("$id_" ++ f, jGet idfs f))))) (.obj idfs) with
        | .ok (w2, b'') =>
          (.ok (" WHERE (" ++ w2 ++ ")", b'') :
            Except Err (String × Option Bindings))
        | .error e => .error e)
      else .ok ("", some (JFields.ofList
        ((pk.filter (fun f => truthy (jGet idfs f))).map
          (fun f => ("$id_" ++ f, jGet idfs f)))))) = _
    rw [if_pos hlen]
    have hp2 := wherePkFields_pass2 (.obj idfs)
      (pk.filter (fun f => truthy (jGet idfs f)))
      (JFields.ofList
        ((pk.filter (fun f => truthy (jGet idfs f))).map
          (fun f => ("$id_" ++ f, jGet idfs f))))
      (fun f hf => by
        exact jLookup_ofList_map_eq
          (fun a _ b _ h => hinj a b h) f hf)
      (fun f hf => (List.mem_filter.mp hf).2)
      (fun f hf => by
        apply jLookup_ofList_map_none
        intro g hg he
        have h1 : ("$id_" ++ g : String) = "$id_" ++ (f ++ "2") :=
          he.trans (String.append_assoc _ _ _)
        exact hsuf f (List.mem_of_mem_filter hf) g
          (List.mem_of_mem_filter hg) (hinj g (f ++ "2") h1))
      hrep hndF
    have hpk2 : computeWherePk ⟨true, pk⟩
        (some (JFields.ofList
          ((pk.filter (fun f => truthy (jGet idfs f))).map
            (fun f => ("$id_" ++ f, jGet idfs f))))) (.obj idfs) =
        .ok (jsJoin " AND "
            ((pk.filter (fun f => truthy (jGet idfs f))).map
              (fun f => T ++ "." ++ f ++ " = " ++ ("$id_" ++ f ++ "2"))),
          some (jAppend (JFields.ofList
            ((pk.filter (fun f => truthy (jGet idfs f))).map
              (fun f => ("$id_" ++ f, jGet idfs f))))
            (JFields.ofList
              ((pk.filter (fun f => truthy (jGet idfs f))).map
                (fun f => ("$id_" ++ f ++ "2", jGet idfs f)))))) := by
      show (match wherePkFields
          (some (JFields.ofList
            ((pk.filter (fun f => truthy (jGet idfs f))).map
              (fun f => ("$id_" ++ f, jGet idfs f))))) (.obj idfs)
          (pk.filter (fun f => truthy (propOf (.obj idfs) f))) with
        | .ok (parts, b') =>
          (.ok (jsJoin " AND " parts, b') :
            Except Err (String × Option Bindings))
        | .error e => .error e) = _
      rw [hfil, hp2]
      rfl
    rw [hpk2, jAppend_ofList]
  · intro hq
    rw [hbranch]
    have hp1 := wherePkFields_pass1 (.obj idfs)
      (pk.filter (fun f => truthy (jGet idfs f))) .nil
      (fun f _ => rfl) hrep hndF
    have hpk1 : computeWherePk ⟨true, pk⟩ (some .nil) (.obj idfs) =
        .ok ("", some JFields.nil) := by
      show (match wherePkFields (some JFields.nil) (.obj idfs)
          (pk.filter (fun f => truthy (propOf (.obj idfs) f))) with
        | .ok (parts, b') =>
          (.ok (jsJoin " AND " parts, b') :
            Except Err (String × Option Bindings))
        | .error e => .error e) = _
      rw [hfil, hp1, hq]
      rfl
    rw [hpk1]
    rfl

theorem digCh_toNat (d : Nat) (h : d < 10) : (digCh d).toNat = 48 + d := by
  interval_cases d <;> rfl

theorem natToStringAux_ne_nil (fuel n : Nat) (h : 0 < fuel) :
    natToStringAux fuel n ≠ [] := by
  cases fuel with
  | zero => omega
  | succ f => by_cases h10 : n < 10 <;> simp [natToStringAux, h10]

theorem natToString_data_ne_nil (n : Nat) : (natToString n).data ≠ [] := by
  show (natToStringAux (n + 1) n).reverse ≠ []
  rw [ne_eq, List.reverse_eq_nil_iff]
  exact natToStringAux_ne_nil (n + 1) n (Nat.succ_pos n)

theorem digitsToNat_append (l : List Char) (c : Char) :
    digitsToNat (l ++ [c]) = digitsToNat l * 10 + (c.toNat - 48) := by
  simp [digitsToNat, List.foldl_append]

theorem digitsToNat_natToStringAux : ∀ (fuel n : Nat), n < fuel →
    digitsToNat (natToStringAux fuel n).reverse = n := by
  intro fuel
  induction fuel with
  | zero => intro n h; omega
  | succ f ih =>
    intro n h
    by_cases h10 : n < 10
    · simp [natToStringAux, h10, digitsToNat, digCh_toNat n h10]
    · have hn10 : n / 10 < f := by
        have h1 : n / 10 < n := Nat.div_lt_self (by omega) (by omega)
        omega
      simp only [natToStringAux, h10, if_false]
      rw [List.reverse_cons, digitsToNat_append, ih (n / 10) hn10,
        digCh_toNat (n % 10) (Nat.mod_lt n (by omega))]
      omega

theorem natToString_inj {m n : Nat} (h : natToString m = natToString n) :
    m = n := by
  have hm := digitsToNat_natToStringAux (m + 1) m (Nat.lt_succ_self m)
  have hn := digitsToNat_natToStringAux (n + 1) n (Nat.lt_succ_self n)
  have hd : (natToStringAux (m + 1) m).reverse =
      (natToStringAux (n + 1) n).reverse := congrArg String.data h
  rw [← hm, ← hn, hd]

theorem canonName_ge_two (base : String) {k : Nat} (h : 2 ≤ k) :
    canonName base k = base ++ natToString k := by
  rw [canonName, if_neg (by omega)]

theorem canonName_inj (base : String) {j m : Nat} (hj : 1 ≤ j) (hm : 1 ≤ m)
    (h : canonName base j = canonName base m) : j = m := by
  by_cases hj1 : j = 1 <;> by_cases hm1 : m = 1
  · omega
  · exfalso
    subst hj1
    rw [show canonName base 1 = base from rfl,
      canonName_ge_two base (show 2 ≤ m by omega)] at h
    have hd := congrArg String.data h
    rw [String.data_append] at hd
    have hl := congrArg List.length hd
    rw [List.length_append] at hl
    exact natToString_data_ne_nil m (List.length_eq_zero.mp (by omega))
  · exfalso
    subst hm1
    rw [show canonName base 1 = base from rfl,
      canonName_ge_two base (show 2 ≤ j by omega)] at h
    have hd := congrArg String.data h.symm
    rw [String.data_append] at hd
    have hl := congrArg List.length hd
    rw [List.length_append] at hl
    exact natToString_data_ne_nil j (List.length_eq_zero.mp (by omega))
  · rw [canonName_ge_two base (show 2 ≤ j by omega),
      canonName_ge_two base (show 2 ≤ m by omega)] at h
    exact natToString_inj (string_append_left_cancel h)

theorem jLookup_canonList_truthy (base : String) :
    ∀ (vals : List JVal) (s : Nat), 1 ≤ s →
      (∀ w ∈ vals, truthy w = true) →
      ∀ j, s ≤ j → j < s + vals.length →
        truthy (jGet (JFields.ofList (canonList base vals s))
          (canonName base j)) = true := by
  intro vals
  induction vals with
  | nil => intro s _ _ j h1 h2; simp at h2; omega
  | cons w t ih =>
    intro s hs hall j hj1 hj2
    by_cases hjs : j = s
    · subst hjs
      simp [canonList, JFields.ofList, jGet, jLookup,
        hall w (List.mem_cons_self w t)]
    · have hne : canonName base s ≠ canonName base j := fun he =>
        hjs (canonName_inj base hs (by omega) he).symm
      simp only [canonList, JFields.ofList, jGet, jLookup, if_neg hne]
      exact ih (s + 1) (by omega)
        (fun x hx => hall x (List.mem_cons_of_mem w hx)) j (by omega)
        (by simp at hj2 ⊢; omega)

theorem jLookup_canonList_none (base : String) :
    ∀ (vals : List JVal) (s m : Nat), 1 ≤ s → 1 ≤ m →
      (m < s ∨ s + vals.length ≤ m) →
      jLookup (JFields.ofList (canonList base vals s))
        (canonName base m) = none := by
  intro vals
  induction vals with
  | nil => intro s m _ _ _; simp [canonList, JFields.ofList, jLookup]
  | cons w t ih =>
    intro s m hs hm hrange
    have hne : canonName base s ≠ canonName base m := fun he => by
      have := canonName_inj base hs hm he
      simp [List.length_cons] at hrange
      omega
    simp only [canonList, JFields.ofList, jLookup, if_neg hne]
    exact ih (s + 1) m (by omega) hm
      (by simp [List.length_cons] at hrange; omega)

theorem canonList_append (base : String) :
    ∀ (vals : List JVal) (v : JVal) (s : Nat),
      canonList base (vals ++ [v]) s =
        canonList base vals s ++ [(canonName base (s + vals.length), v)] := by
  intro vals
  induction vals with
  | nil => intro v s; simp [canonList]
  | cons w t ih =>
    intro v s
    show (canonName base s, w) :: canonList base (t ++ [v]) (s + 1) =
      (canonName base s, w) ::
        (canonList base t (s + 1) ++
          [(canonName base (s + (t.length + 1)), v)])
    rw [ih v (s + 1),
      show s + 1 + t.length = s + (t.length + 1) from by omega]

theorem storeBindingLoop_canon (base : String) (v : JVal)
    (vals : List JVal) (hall : ∀ w ∈ vals, truthy w = true) :
    ∀ (fuel i : Nat), 2 ≤ i → i ≤ vals.length + 1 →
      vals.length + 1 < i + fuel →
      storeBindingLoop (JFields.ofList (canonList base vals 1)) base v
          i fuel =
        .ok (base ++ natToString (vals.length + 1),
          jSet (JFields.ofList (canonList base vals 1))
            (base ++ natToString (vals.length + 1)) v) := by
  intro fuel
  induction fuel with
  | zero => intro i _ _ _; omega
  | succ fuel ih =>
    intro i h2 hile hbound
    rw [storeBindingLoop]
    by_cases hi : i = vals.length + 1
    · subst hi
      have hnone : jLookup (JFields.ofList (canonList base vals 1))
          (canonName base (vals.length + 1)) = none :=
        jLookup_canonList_none base vals 1 (vals.length + 1) (by omega)
          (by omega) (by omega)
      rw [if_neg (by
        rw [← canonName_ge_two base (show 2 ≤ vals.length + 1 by omega)]
        simp [jGet, hnone, truthy])]
    · have htaken : truthy (jGet (JFields.ofList (canonList base vals 1))
          (base ++ natToString i)) = true := by
        rw [← canonName_ge_two base h2]
        exact jLookup_canonList_truthy base vals 1 (by omega) hall i
          (by omega) (by omega)
      rw [if_pos htaken]
      exact ih (i + 1) (by omega) (by omega) (by omega)

theorem storeBinding_canon (name : String) (v : JVal) (vals : List JVal)
    (hall : ∀ w ∈ vals, truthy w = true)
    (hlen : vals.length + 1 ≤ 999) :
    storeBinding
        (JFields.ofList (canonList ("$" ++ jsReplaceFirstDot name) vals 1))
        name v =
      .ok (canonName ("$" ++ jsReplaceFirstDot name) (vals.length + 1),
        JFields.ofList (canonList ("$" ++ jsReplaceFirstDot name)
          (vals ++ [v]) 1)) := by
  set base := "$" ++ jsReplaceFirstDot name with hbase
  cases vals with
  | nil =>
    rw [storeBinding]
    rw [if_pos (by simp [canonList, JFields.ofList, jGet, jLookup, truthy])]
    simp [canonList, JFields.ofList, jSet, canonName]
  | cons w t =>
    rw [storeBinding]
    rw [if_neg (by
      simp only [Bool.not_eq_true', Bool.not_eq_false]
      have : jGet (JFields.ofList (canonList base (w :: t) 1)) base = w := by
        simp [canonList, JFields.ofList, jGet, jLookup, canonName]
      rw [this]
      exact hall w (List.mem_cons_self w t))]
    have hlp := storeBindingLoop_canon base v (w :: t)
      hall (MAX_BINDING_NAME - 2) 2 (by omega)
      (by simp)
      (by
        simp only [List.length_cons] at hlen ⊢
        have hm : MAX_BINDING_NAME - 2 = 998 := rfl
        omega)
    rw [hlp]
    have habs : jLookup (JFields.ofList (canonList base (w :: t) 1))
        (canonName base ((w :: t).length + 1)) = none :=
      jLookup_canonList_none base (w :: t) 1 ((w :: t).length + 1)
        (by omega) (by omega) (by omega)
    rw [← canonName_ge_two base (show 2 ≤ (w :: t).length + 1 by simp),
      jSet_absent _ _ _ habs]
    rw [canonList_append base (w :: t) v 1]
    rw [← jAppend_ofList]
    rw [show 1 + (w :: t).length = (w :: t).length + 1 from by omega]
    rfl

theorem inLoop_cons_nonnull (prop : String) (w : JVal) (hw : w ≠ .null)
    (t : JList) (i : Nat) (cn : Bool) (acc : String) (cnt : Nat)
    (b : Option Bindings) :
    inLoop prop (.cons w t) i cn acc cnt b =
      (match storeBindingOpt b prop w with
       | .ok (n, b') =>
         inLoop prop t (i + 1) cn
           ((if i > (if cn then 1 else 0) then acc ++ "," else acc) ++ n)
           (cnt + 1) b'
       | .error e => .error e) := by
  cases w <;> first | exact absurd rfl hw | rfl

theorem jsJoin_cons_ne (sep x : String) (l : List String) (h : l ≠ []) :
    jsJoin sep (x :: l) = x ++ sep ++ jsJoin sep l := by
  cases l with
  | nil => exact absurd rfl h
  | cons y t => rfl

theorem jsJoin_canonNames (base : String) : ∀ (k cnt : Nat),
    jsJoin "," ((List.range (k + 1)).map
        fun j => canonName base (cnt + 1 + j)) =
      canonName base (cnt + 1) ++ memberText base (cnt + 1) k := by
  intro k
  induction k with
  | zero =>
    intro cnt
    simp [jsJoin, memberText]
  | succ k ih =>
    intro cnt
    have hrange : (List.range (k + 2)).map
        (fun j => canonName base (cnt + 1 + j)) =
        canonName base (cnt + 1) :: (List.range (k + 1)).map
          (fun j => canonName base (cnt + 1 + 1 + j)) := by
      rw [List.range_succ_eq_map]
      simp only [List.map_cons, List.map_map]
      congr 1
      apply List.map_congr_left
      intro j _
      simp only [Function.comp]
      congr 1
      omega
    rw [hrange, jsJoin_cons_ne "," _ _ (by simp), ih (cnt + 1)]
    rw [show memberText base (cnt + 1) (k + 1) =
      (if cnt + 1 > 0 then "," else "") ++ canonName base (cnt + 1 + 1) ++
        memberText base (cnt + 1 + 1) k from rfl]
    simp [String.append_assoc]

theorem memberText_eq_jsJoin (base : String) (n : Nat) (h : 1 ≤ n) :
    memberText base 0 n = jsJoin "," (canonNames base n) := by
  obtain ⟨k, rfl⟩ : ∃ k, n = k + 1 := ⟨n - 1, by omega⟩
  rw [show canonNames base (k + 1) = (List.range (k + 1)).map
      (fun j => canonName base (0 + 1 + j)) from by
    simp only [canonNames]
    apply List.map_congr_left
    intro a _
    congr 1
    omega]
  rw [jsJoin_canonNames base k 0]
  rw [show memberText base 0 (k + 1) =
    (if 0 > 0 then "," else "") ++ canonName base (0 + 1) ++
      memberText base (0 + 1) k from rfl]
  simp

theorem canonNames_length (base : String) (n : Nat) :
    (canonNames base n).length = n := by
  simp [canonNames]

theorem inLoop_seg (prop : String) :
    ∀ (xs : List JVal) (rest : JList) (vals : List JVal) (cn : Bool)
      (acc : String),
      (∀ w ∈ xs, w ≠ JVal.null) →
      (∀ w ∈ xs, truthy w = true) →
      (∀ w ∈ vals, truthy w = true) →
      vals.length + xs.length ≤ 999 →
      inLoop prop (jlAppend (JList.ofList xs) rest)
          (vals.length + (if cn then 1 else 0)) cn acc vals.length
          (some (JFields.ofList
            (canonList ("$" ++ jsReplaceFirstDot prop) vals 1))) =
        inLoop prop rest
          (vals.length + xs.length + (if cn then 1 else 0)) cn
          (acc ++ memberText ("$" ++ jsReplaceFirstDot prop)
            vals.length xs.length)
          (vals.length + xs.length)
          (some (JFields.ofList
            (canonList ("$" ++ jsReplaceFirstDot prop) (vals ++ xs) 1))) := by
  intro xs
  induction xs with
  | nil =>
    intro rest vals cn acc _ _ _ _
    simp [jlAppend, JList.ofList, memberText]
  | cons w t ih =>
    intro rest vals cn acc hnn htr hvals hlen
    have hw : w ≠ JVal.null := hnn w (List.mem_cons_self w t)
    rw [show jlAppend (JList.ofList (w :: t)) rest =
      .cons w (jlAppend (JList.ofList t) rest) from rfl]
    rw [inLoop_cons_nonnull prop w hw]
    have hsb := storeBinding_canon prop w vals hvals
      (by simp only [List.length_cons] at hlen; omega)
    have hsbo : storeBindingOpt (some (JFields.ofList
        (canonList ("$" ++ jsReplaceFirstDot prop) vals 1))) prop w =
        .ok (canonName ("$" ++ jsReplaceFirstDot prop) (vals.length + 1),
          some (JFields.ofList (canonList ("$" ++ jsReplaceFirstDot prop)
            (vals ++ [w]) 1))) := by
      simp [storeBindingOpt, hsb]
    rw [hsbo]
    have ihh := ih rest (vals ++ [w]) cn
      ((if vals.length + (if cn then 1 else 0) > (if cn then 1 else 0)
          then acc ++ "," else acc) ++
        canonName ("$" ++ jsReplaceFirstDot prop) (vals.length + 1))
      (fun x hx => hnn x (List.mem_cons_of_mem w hx))
      (fun x hx => htr x (List.mem_cons_of_mem w hx))
      (fun x hx => by
        rcases List.mem_append.mp hx with hx1 | hx1
        · exact hvals x hx1
        · rcases List.mem_singleton.mp hx1 with rfl
          exact htr x (List.mem_cons_self x t))
      (by
        simp only [List.length_cons] at hlen
        simp only [List.length_append, List.length_singleton]
        omega)
    simp only [List.length_append, List.length_singleton] at ihh
    show inLoop prop (jlAppend (JList.ofList t) rest)
        (vals.length + (if cn = true then 1 else 0) + 1) cn
        ((if vals.length + (if cn = true then 1 else 0) >
            (if cn = true then 1 else 0) then acc ++ "," else acc) ++
          canonName ("$" ++ jsReplaceFirstDot prop) (vals.length + 1))
        (vals.length + 1)
        (some (JFields.ofList (canonList ("$" ++ jsReplaceFirstDot prop)
          (vals ++ [w]) 1))) = _
    rw [show vals.length + (if cn = true then 1 else 0) + 1 =
      vals.length + 1 + (if cn = true then 1 else 0) from by omega]
    have htxt : ((if vals.length + (if cn = true then 1 else 0) >
          (if cn = true then 1 else 0) then acc ++ "," else acc) ++
        canonName ("$" ++ jsReplaceFirstDot prop) (vals.length + 1)) ++
        memberText ("$" ++ jsReplaceFirstDot prop) (vals.length + 1)
          t.length =
        acc ++ memberText ("$" ++ jsReplaceFirstDot prop) vals.length
          (t.length + 1) := by
      rw [show memberText ("$" ++ jsReplaceFirstDot prop) vals.length
          (t.length + 1) =
        (if vals.length > 0 then "," else "") ++
          canonName ("$" ++ jsReplaceFirstDot prop) (vals.length + 1) ++
          memberText ("$" ++ jsReplaceFirstDot prop) (vals.length + 1)
            t.length from rfl]
      by_cases h0 : 0 < vals.length
      · rw [if_pos (show vals.length + (if cn = true then 1 else 0) >
          (if cn = true then 1 else 0) from by omega),
          if_pos (show vals.length > 0 from h0)]
        simp [String.append_assoc]
      · rw [if_neg (show ¬(vals.length + (if cn = true then 1 else 0) >
          (if cn = true then 1 else 0)) from by omega),
          if_neg (show ¬(vals.length > 0) from by omega)]
        simp [String.append_assoc]
    rw [htxt] at ihh
    rw [show vals.length + 1 + t.length = vals.length + (t.length + 1)
      from by omega] at ihh
    rw [List.append_assoc, List.singleton_append] at ihh
    rw [show (w :: t).length = t.length + 1 from rfl]
    exact ihh

theorem memberText_add (base : String) :
    ∀ (k1 k2 cnt : Nat),
      memberText base cnt (k1 + k2) =
        memberText base cnt k1 ++ memberText base (cnt + k1) k2 := by
  intro k1
  induction k1 with
  | zero => intro k2 cnt; simp [memberText]
  | succ k ih =>
    intro k2 cnt
    rw [show k + 1 + k2 = (k + k2) + 1 from by omega]
    rw [show memberText base cnt ((k + k2) + 1) =
      (if cnt > 0 then "," else "") ++ canonName base (cnt + 1) ++
        memberText base (cnt + 1) (k + k2) from rfl]
    rw [show memberText base cnt (k + 1) =
      (if cnt > 0 then "," else "") ++ canonName base (cnt + 1) ++
        memberText base (cnt + 1) k from rfl]
    rw [ih k2 (cnt + 1),
      show cnt + 1 + k = cnt + (k + 1) from by omega]
    simp [String.append_assoc]

theorem JList.ofList_append (a b : List JVal) :
    JList.ofList (a ++ b) = jlAppend (JList.ofList a) (JList.ofList b) := by
  induction a with
  | nil => rfl
  | cons x t ih => simp [JList.ofList, jlAppend, ih]

theorem append_ne_empty_left (x y : String) (h : x.data ≠ []) :
    x ++ y ≠ "" := by
  intro he
  have hd := congrArg String.data he
  rw [String.data_append] at hd
  exact h (List.append_eq_nil.mp hd).1

theorem append_ne_empty_right (x y : String) (h : y.data ≠ []) :
    x ++ y ≠ "" := by
  intro he
  have hd := congrArg String.data he
  rw [String.data_append] at hd
  exact h (List.append_eq_nil.mp hd).2

theorem jlAppend_nil_right (a : List JVal) :
    jlAppend (JList.ofList a) .nil = JList.ofList a := by
  induction a with
  | nil => rfl
  | cons x t ih => simp [JList.ofList, jlAppend] at ih ⊢; exact ih

theorem inLoop_full (prop : String) (pre post : List JVal)
    (hnn : ∀ w ∈ pre ++ post, w ≠ JVal.null)
    (htr : ∀ w ∈ pre ++ post, truthy w = true)
    (hlen : pre.length + post.length ≤ 999) :
    inLoop prop (JList.ofList (pre ++ JVal.null :: post)) 0 false "" 0
        (some .nil) =
      .ok (memberText ("$" ++ jsReplaceFirstDot prop) 0
          (pre.length + post.length),
        pre.length + post.length, true,
        some (JFields.ofList (canonList ("$" ++ jsReplaceFirstDot prop)
          (pre ++ post) 1))) := by
  rw [JList.ofList_append]
  have hseg1 := inLoop_seg prop pre (JList.ofList (JVal.null :: post)) []
    false ""
    (fun w hw => hnn w (List.mem_append_left post hw))
    (fun w hw => htr w (List.mem_append_left post hw))
    (fun w hw => absurd hw (List.not_mem_nil w))
    (by simpa using Nat.le_trans (Nat.le_add_right _ _) hlen)
  simp only [List.length_nil, List.nil_append, Nat.zero_add,
    Bool.false_eq_true, if_false, Nat.add_zero] at hseg1
  rw [show (some (JFields.nil : JFields) : Option Bindings) =
    some (JFields.ofList (canonList ("$" ++ jsReplaceFirstDot prop) [] 1))
    from rfl]
  rw [hseg1]
  rw [show JList.ofList (JVal.null :: post) =
    .cons JVal.null (JList.ofList post) from rfl]
  rw [show inLoop prop (.cons JVal.null (JList.ofList post))
      pre.length false ("" ++ memberText ("$" ++ jsReplaceFirstDot prop)
        0 pre.length) pre.length
      (some (JFields.ofList (canonList ("$" ++ jsReplaceFirstDot prop)
        pre 1))) =
    inLoop prop (JList.ofList post) (pre.length + 1) true
      ("" ++ memberText ("$" ++ jsReplaceFirstDot prop) 0 pre.length)
      pre.length
      (some (JFields.ofList (canonList ("$" ++ jsReplaceFirstDot prop)
        pre 1))) from rfl]
  have hseg2 := inLoop_seg prop post .nil pre true
    ("" ++ memberText ("$" ++ jsReplaceFirstDot prop) 0 pre.length)
    (fun w hw => hnn w (List.mem_append_right pre hw))
    (fun w hw => htr w (List.mem_append_right pre hw))
    (fun w hw => htr w (List.mem_append_left post hw))
    hlen
  rw [show JList.ofList post = jlAppend (JList.ofList post) .nil from
    (jlAppend_nil_right post).symm]
  rw [show pre.length + 1 = pre.length + (if true = true then 1 else 0)
    from by simp]
  rw [hseg2]
  rw [show inLoop prop .nil
      (pre.length + post.length + (if true = true then 1 else 0)) true
      (("" ++ memberText ("$" ++ jsReplaceFirstDot prop) 0 pre.length) ++
        memberText ("$" ++ jsReplaceFirstDot prop) pre.length post.length)
      (pre.length + post.length)
      (some (JFields.ofList (canonList ("$" ++ jsReplaceFirstDot prop)
        (pre ++ post) 1))) =
    .ok ((("" ++ memberText ("$" ++ jsReplaceFirstDot prop) 0 pre.length) ++
        memberText ("$" ++ jsReplaceFirstDot prop) pre.length post.length),
      pre.length + post.length, true,
      some (JFields.ofList (canonList ("$" ++ jsReplaceFirstDot prop)
        (pre ++ post) 1))) from rfl]
  rw [String.empty_append,
    memberText_add ("$" ++ jsReplaceFirstDot prop) pre.length post.length 0,
    Nat.zero_add]

theorem inFragment_canon (c : Col) (prop : String) (pre post : List JVal)
    (hnn : ∀ w ∈ pre ++ post, w ≠ JVal.null)
    (htr : ∀ w ∈ pre ++ post, truthy w = true)
    (hlen : pre.length + post.length ≤ 999)
    (hpos : 0 < pre.length + post.length) :
    inFragment c true prop (JList.ofList (pre ++ JVal.null :: post))
        (some .nil) =
      .ok (("(" ++ computeDbProp c prop ++
            (" IN (" ++ memberText ("$" ++ jsReplaceFirstDot prop) 0
              (pre.length + post.length) ++ ")") ++
            " OR EXISTS (" ++ computeDbProp c prop ++ "[$element" ++
            (" IN (" ++ memberText ("$" ++ jsReplaceFirstDot prop) 0
              (pre.length + post.length) ++ ")") ++ "])") ++
          (" OR NOT EXISTS " ++ computeDbProp c prop) ++ ")",
        some (JFields.ofList (canonList ("$" ++ jsReplaceFirstDot prop)
          (pre ++ post) 1))) := by
  simp only [inFragment]
  rw [inLoop_full prop pre post hnn htr hlen]
  show Except.ok
      ((if pre.length + post.length > 0 then
          "(" ++ computeDbProp c prop ++
            (" IN (" ++ memberText ("$" ++ jsReplaceFirstDot prop) 0
              (pre.length + post.length) ++ ")") ++
            " OR EXISTS (" ++ computeDbProp c prop ++ "[$element" ++
            (" IN (" ++ memberText ("$" ++ jsReplaceFirstDot prop) 0
              (pre.length + post.length) ++ ")") ++ "])"
        else "") ++
        (" OR NOT EXISTS " ++ computeDbProp c prop) ++ ")",
      some (JFields.ofList (canonList ("$" ++ jsReplaceFirstDot prop)
        (pre ++ post) 1))) = _
  rw [if_pos hpos]

theorem compEntry_in (c : Col) (p : String) (x : JVal) (xs : JList)
    (b : Option Bindings) :
    compEntry c p (.obj (.cons "$in" (.arr (.cons x xs)) .nil)) b =
      match inFragment c true p (.cons x xs) b with
      | .ok (s, b') => .ok ("" ++ s, b')
      | .error e => .error e := by
  show (match inFragment c true p (.cons x xs) b with
    | .ok (s, b') =>
      opLoop c p (.cons "$in" (.arr (.cons x xs)) .nil) .nil ("" ++ s) b'
    | .error e => .error e) = _
  cases inFragment c true p (.cons x xs) b with
  | error e => rfl
  | ok sb => rfl

theorem compExpFields_single (c : Col) (p : String) (pv : JVal)
    (b : Option Bindings) (hp : jsStartsWith p "$" = false) :
    compExpFields c (.cons p pv .nil) "" b =
      match compEntry c p pv b with
      | .ok (s, b') => .ok ("" ++ s, b')
      | .error e => .error e := by
  rw [compExpFields]
  · rw [hp]
    simp only [Bool.false_eq_true, if_false]
    cases hce : compEntry c p pv b with
    | error e => rfl
    | ok sb =>
      obtain ⟨s, b'⟩ := sb
      simp [compExpFields]
  all_goals (intro he; subst he; exact absurd hp (by decide))

theorem compExp_obj (c : Col) (fs : JFields) (b : Option Bindings) :
    compExp c (.obj fs) b =
      match compExpFields c fs "" b with
      | .ok (res, b') =>
        .ok (if res = "" then "" else "(" ++ res ++ ")", b')
      | .error e => .error e := by
  rw [compExp]

theorem computeWhere_nonid (c : Col) (p : String) (pv : JVal)
    (b : Option Bindings) (hpid : p ≠ "_id") :
    computeWhere c (.obj (.cons p pv .nil)) b =
      match compExp c (.obj (.cons p pv .nil)) b with
      | .ok (cond, b') =>
        if cond = "" then .ok ("", b') else .ok (" WHERE " ++ cond, b')
      | .error e => .error e := by
  have hfid : propOf (JVal.obj (.cons p pv .nil)) "_id" = .undef := by
    simp [propOf, jGet, jLookup, hpid]
  simp only [computeWhere, hfid]
  rfl

/-! ### Claim C1 -/

/-- Claim C1, counterexample: compiling the identity-only filter
`{_id: "x"}` on a simple-key table stores TWO bindings (`$id` and
`$id2`), not exactly one, because `_computeWhere` invokes
`_computeWherePk` twice on the same bindings map (once for the length
test, once for the returned text); the emitted equality references the
second name `$id2`. -/
theorem claim_C1_counterexample :
    computeWhere simpleCol (.obj (.cons "_id" (.str "x") .nil))
        (some .nil) =
      .ok (" WHERE ($t.kvid = $id2)",
        some (.cons "$id" (.str "x") (.cons "$id2" (.str "x") .nil))) ∧
    (JFields.keys
      (.cons "$id" (.str "x") (.cons "$id2" (.str "x") .nil))).length ≠ 1 :=
  ⟨rfl, by decide⟩

/-- Claim C1, amended: for an identity-only filter, the compiled WHERE
text contains exactly one bound equality against the key column on a
simple-key table, and one bound equality per key field present (truthy)
in the supplied `_id` value on a composite-key table, AND-joined with
absent fields omitted (an all-absent `_id` compiles to no WHERE clause);
however the bindings map receives TWO entries per equality, and the
text references the second, numerically suffixed names (`$id2`,
`$id_f2`).  The composite part assumes well-formed key field names
(no dots, no duplicates, no field equal to another field with `2`
appended). -/
theorem claim_C1_amended :
    (∀ v : JVal, truthy v = true → idTypeObject v = true →
      truthy (.str (jsToString v)) = true →
      computeWhere simpleCol (.obj (.cons "_id" v .nil)) (some .nil) =
        .ok (" WHERE (" ++ (T ++ "." ++ KVID ++ " = " ++ "$id2") ++ ")",
          some (.cons "$id" (.str (jsToString v))
            (.cons "$id2" (.str (jsToString v)) .nil)))) ∧
    (∀ (pk : List String) (idfs : JFields),
      (∀ f ∈ pk, '.' ∉ f.data) → pk.Nodup →
      (∀ f ∈ pk, ∀ g ∈ pk, g ≠ f ++ "2") →
      (pk.filter (fun f => truthy (jGet idfs f)) ≠ [] →
        computeWhere ⟨true, pk⟩ (.obj (.cons "_id" (.obj idfs) .nil))
            (some .nil) =
          .ok (" WHERE (" ++ jsJoin " AND "
              ((pk.filter (fun f => truthy (jGet idfs f))).map
                (fun f => T ++ "." ++ f ++ " = " ++ ("$id_" ++ f ++ "2")))
              ++ ")",
            some (JFields.ofList (
              ((pk.filter (fun f => truthy (jGet idfs f))).map
                (fun f => ("$id_" ++ f, jGet idfs f))) ++
              ((pk.filter (fun f => truthy (jGet idfs f))).map
                (fun f => ("$id_" ++ f ++ "2", jGet idfs f))))))) ∧
      (pk.filter (fun f => truthy (jGet idfs f)) = [] →
        computeWhere ⟨true, pk⟩ (.obj (.cons "_id" (.obj idfs) .nil))
            (some .nil) =
          .ok ("", some .nil))) :=
  ⟨fun v hv hty hs => computeWhere_id_simple v hv hty hs,
   fun pk idfs h1 h2 h3 => computeWhere_id_composite pk idfs h1 h2 h3⟩

/-- Claim C1, witness for the amended theorem at concrete inputs:
a simple-key lookup by string id, and a composite-key table
`(a, b)` with only `a` present in the `_id` value. -/
theorem claim_C1_amended_witness :
    (computeWhere simpleCol (.obj (.cons "_id" (.str "x") .nil))
        (some .nil) =
      .ok (" WHERE (" ++ (T ++ "." ++ KVID ++ " = " ++ "$id2") ++ ")",
        some (.cons "$id" (.str (jsToString (.str "x")))
          (.cons "$id2" (.str (jsToString (.str "x"))) .nil)))) ∧
    (computeWhere ⟨true, ["a", "b"]⟩
        (.obj (.cons "_id" (.obj (.cons "a" (.str "1") .nil)) .nil))
        (some .nil) =
      .ok (" WHERE (" ++ jsJoin " AND "
          ((["a", "b"].filter (fun f =>
              truthy (jGet (.cons "a" (.str "1") .nil) f))).map
            (fun f => T ++ "." ++ f ++ " = " ++ ("$id_" ++ f ++ "2"))) ++
          ")",
        some (JFields.ofList (
          ((["a", "b"].filter (fun f =>
              truthy (jGet (.cons "a" (.str "1") .nil) f))).map
            (fun f => ("$id_" ++ f, jGet (.cons "a" (.str "1") .nil) f))) ++
          ((["a", "b"].filter (fun f =>
              truthy (jGet (.cons "a" (.str "1") .nil) f))).map
            (fun f => ("$id_" ++ f ++ "2",
              jGet (.cons "a" (.str "1") .nil) f))))))) :=
  ⟨claim_C1_amended.1 (.str "x") rfl rfl rfl,
   (claim_C1_amended.2 ["a", "b"] (.cons "a" (.str "1") .nil)
      (by decide) (by decide) (by decide)).1 (by decide)⟩

/-! ### Claim C2 -/

/-- Claim C2, counterexample: storing `false` under base name `x` and
then a different value `1` under the same base name returns the same
bound-variable name `$x` twice, and the originally stored value is
overwritten (the `!bindings[name]` guard treats a stored falsy value as
an absent slot).  This refutes the claim as stated for falsy first
values. -/
theorem claim_C2_counterexample :
    storeBinding .nil "x" (.bool false) =
      .ok ("$x", .cons "$x" (.bool false) .nil) ∧
    storeBinding (.cons "$x" (.bool false) .nil) "x" (.num 1) =
      .ok ("$x", .cons "$x" (.num 1) .nil) :=
  ⟨rfl, rfl⟩

/-- Claim C2, amended: provided the first value stored is truthy, two
`_storeBinding` calls with the same base name return two distinct
bound-variable names and afterwards each name maps to the value stored
under it unchanged; and when the base slot and every numeric-suffix
slot up to the fixed maximum (`MAX_BINDING_NAME`) hold truthy values,
the call fails with the too-many-bindings error. -/
theorem claim_C2_amended :
    (∀ (b : Bindings) (name : String) (v₁ v₂ : JVal)
        (n₁ : String) (b₁ : Bindings) (n₂ : String) (b₂ : Bindings),
        truthy v₁ = true →
        storeBinding b name v₁ = .ok (n₁, b₁) →
        storeBinding b₁ name v₂ = .ok (n₂, b₂) →
        n₁ ≠ n₂ ∧ jLookup b₂ n₁ = some v₁ ∧ jLookup b₂ n₂ = some v₂) ∧
    (∀ (b : Bindings) (name : String) (v : JVal),
        truthy (jGet b ("$" ++ jsReplaceFirstDot name)) = true →
        (∀ i, 2 ≤ i → i < MAX_BINDING_NAME →
          truthy (jGet b ("$" ++ jsReplaceFirstDot name ++ natToString i)) = true) →
        storeBinding b name v = .error .tooManyBindings) := by
  constructor
  · intro b name v₁ v₂ n₁ b₁ n₂ b₂ hv h1 h2
    obtain ⟨hf1, rfl⟩ := storeBinding_ok b name v₁ n₁ b₁ h1
    obtain ⟨hf2, rfl⟩ := storeBinding_ok _ name v₂ n₂ b₂ h2
    have hne : n₁ ≠ n₂ := by
      intro he
      rw [← he, jGet_jSet_self, hv] at hf2
      exact Bool.noConfusion hf2
    refine ⟨hne, ?_, jLookup_jSet_self _ _ _⟩
    rw [jLookup_jSet_ne _ _ (Ne.symm hne), jLookup_jSet_self]
  · intro b name v hb hall
    unfold storeBinding
    simp only [hb, Bool.not_true, Bool.false_eq_true, if_false]
    exact storeBindingLoop_exhaust b _ v (MAX_BINDING_NAME - 2) 2
      fun j hj hj' => hall j hj (by revert hj'; simp [MAX_BINDING_NAME])

/-- Claim C2, witness for the amended theorem at concrete inputs. -/
theorem claim_C2_amended_witness :
    ("$x" : String) ≠ "$x2" ∧
    jLookup (jSet (jSet .nil "$x" (.num 1)) "$x2" (.num 2)) "$x" =
      some (.num 1) ∧
    jLookup (jSet (jSet .nil "$x" (.num 1)) "$x2" (.num 2)) "$x2" =
      some (.num 2) :=
  claim_C2_amended.1 .nil "x" (.num 1) (.num 2) "$x" _ "$x2" _ rfl rfl rfl

/-! ### Claim C9 -/

/-- Claim C9: `_computeLiteral` renders every falsy value (0, false,
empty string, null, undefined) as the SQL literal `NULL`, and
consequently the update operators that embed their operand as a literal
($set, $inc, $mul, $min, $max) compile a falsy operand into `NULL`
rather than the value itself. -/
theorem claim_C9_falsy_literal :
    (∀ v : JVal, truthy v = false → computeLiteral v = "NULL") ∧
    (∀ (c : Col) (k : String) (v : JVal), truthy v = false →
      (computeUpdateClause c (.cons "$set" (.obj (.cons k v .nil)) .nil) =
        .ok (" PUT " ++ T ++ " " ++ computeUpdateSetPutProp (.str k) "NULL")) ∧
      (computeUpdateClause c (.cons "$inc" (.obj (.cons k v .nil)) .nil) =
        .ok (" SET " ++ computeDbProp c k ++ " = " ++ computeDbProp c k ++
          " + " ++ "NULL")) ∧
      (computeUpdateClause c (.cons "$mul" (.obj (.cons k v .nil)) .nil) =
        .ok (" SET " ++ computeDbProp c k ++ " = " ++ computeDbProp c k ++
          " * " ++ "NULL")) ∧
      (computeUpdateClause c (.cons "$min" (.obj (.cons k v .nil)) .nil) =
        .ok (" SET " ++ computeDbProp c k ++ " = " ++ "CASE WHEN " ++
          "NULL" ++ " < " ++ computeDbProp c k ++ " THEN " ++ "NULL" ++
          " ELSE " ++ computeDbProp c k ++ " END")) ∧
      (computeUpdateClause c (.cons "$max" (.obj (.cons k v .nil)) .nil) =
        .ok (" SET " ++ computeDbProp c k ++ " = " ++ "CASE WHEN " ++
          "NULL" ++ " > " ++ computeDbProp c k ++ " THEN " ++ "NULL" ++
          " ELSE " ++ computeDbProp c k ++ " END"))) := by
  have hlit : ∀ v : JVal, truthy v = false → computeLiteral v = "NULL" := by
    intro v hv; simp [computeLiteral, hv]
  refine ⟨hlit, ?_⟩
  intro c k v hv
  refine ⟨?_, ?_, ?_, ?_, ?_⟩ <;>
  · simp only [computeUpdateClause, updateClauseLoop, innerFields,
      updateOpClauses, updateOpClauses.go, updateOpClauses.goInc,
      updateOpClauses.goMul, updateOpClauses.goMin, updateOpClauses.goMax,
      hlit v hv, String.append_empty, String.append_assoc]
    first
      | rw [stripComma_cons ", PUT " " PUT " rfl]
      | rw [stripComma_cons ", SET " " SET " rfl]

/-- Claim C9, witness at concrete inputs. -/
theorem claim_C9_falsy_literal_witness :
    truthy (JVal.num 0) = false ∧
    computeUpdateClause simpleCol
        (.cons "$set" (.obj (.cons "a" (.num 0) .nil)) .nil) =
      .ok (" PUT " ++ T ++ " " ++ computeUpdateSetPutProp (.str "a") "NULL") :=
  ⟨rfl, (claim_C9_falsy_literal.2 simpleCol "a" (.num 0) rfl).1⟩

/-! ### Claim C10 -/

/-- Claim C10: `_computeDbProp` sends every property whose name merely
starts with the characters `_id` (for example `_idx` or `_identity`) to
the physical key column on a simple-key table, and to the alias-dotted
suffix after `_id` on a composite-key table; only paths not starting
with `_id` receive the quoted dot-path translation with the trailing
array-flatten marker `[]`. -/
theorem claim_C10_id_prefix_paths :
    (∀ (c : Col) (p : String), jsStartsWith p "_id" = true →
      computeDbProp c p =
        if c.hasCompositeKeys then T ++ "." ++ jsDrop p 3
        else T ++ "." ++ KVID) ∧
    (computeDbProp simpleCol "_idx" = "$t.kvid") ∧
    (computeDbProp ⟨true, ["a", "b"]⟩ "_idx" = "$t.x") ∧
    (computeDbProp simpleCol "_identity" = "$t.kvid") ∧
    (computeDbProp ⟨true, ["a", "b"]⟩ "_identity" = "$t.entity") ∧
    (computeDbProp simpleCol "name.0.x" = "$t.\"name\"[0].\"x\"[]") ∧
    (∀ (c : Col) (p : String), jsStartsWith p "_id" = false →
      computeDbProp c p = T ++ dbPathTrans p ++ "[]") := by
  refine ⟨?_, rfl, rfl, rfl, rfl, rfl, ?_⟩
  · intro c p h
    cases hc : c.hasCompositeKeys <;> simp [computeDbProp, h, hc]
  · intro c p h
    simp [computeDbProp, h]

/-- Claim C10, witness at concrete inputs. -/
theorem claim_C10_id_prefix_paths_witness :
    computeDbProp simpleCol "_idfoo" =
      (if simpleCol.hasCompositeKeys then T ++ "." ++ jsDrop "_idfoo" 3
       else T ++ "." ++ KVID) ∧
    computeDbProp ⟨true, ["a"]⟩ "zip.4" =
      T ++ dbPathTrans "zip.4" ++ "[]" :=
  ⟨claim_C10_id_prefix_paths.1 simpleCol "_idfoo" rfl,
   (claim_C10_id_prefix_paths.2.2.2.2.2.2) ⟨true, ["a"]⟩ "zip.4" rfl⟩

/-! ### Claim C5 -/

theorem computeWhere_in_canon (c : Col) (p : String) (pre post : List JVal)
    (hp : jsStartsWith p "$" = false) (hpid : p ≠ "_id")
    (hnn : ∀ w ∈ pre ++ post, w ≠ JVal.null)
    (htr : ∀ w ∈ pre ++ post, truthy w = true)
    (hlen : pre.length + post.length ≤ 999)
    (hpos : 0 < pre.length + post.length) :
    computeWhere c (.obj (.cons p (.obj (.cons "$in"
        (.arr (JList.ofList (pre ++ JVal.null :: post))) .nil)) .nil))
      (some .nil) =
      .ok (" WHERE " ++ ("(" ++
          (("(" ++ computeDbProp c p ++
            (" IN (" ++ memberText ("$" ++ jsReplaceFirstDot p) 0
              (pre.length + post.length) ++ ")") ++
            " OR EXISTS (" ++ computeDbProp c p ++ "[$element" ++
            (" IN (" ++ memberText ("$" ++ jsReplaceFirstDot p) 0
              (pre.length + post.length) ++ ")") ++ "])") ++
          (" OR NOT EXISTS " ++ computeDbProp c p) ++ ")") ++ ")"),
        some (JFields.ofList (canonList ("$" ++ jsReplaceFirstDot p)
          (pre ++ post) 1))) := by
  obtain ⟨x, xs, hx⟩ : ∃ x xs,
      JList.ofList (pre ++ JVal.null :: post) = JList.cons x xs := by
    cases pre with
    | nil => exact ⟨JVal.null, JList.ofList post, rfl⟩
    | cons a t => exact ⟨a, JList.ofList (t ++ JVal.null :: post), rfl⟩
  rw [computeWhere_nonid c p _ (some .nil) hpid, compExp_obj,
    compExpFields_single c p _ (some .nil) hp, hx, compEntry_in, ← hx,
    inFragment_canon c p pre post hnn htr hlen hpos]
  simp only [String.empty_append]
  rw [if_neg (append_ne_empty_right _ ")" (by decide)),
    if_neg (append_ne_empty_right _ ")" (by decide))]

theorem computeWhere_in_empty (c : Col) (p : String)
    (hp : jsStartsWith p "$" = false) (hpid : p ≠ "_id") :
    computeWhere c (.obj (.cons p (.obj (.cons "$in" (.arr .nil) .nil))
        .nil)) (some .nil) = .ok ("", some .nil) := by
  rw [computeWhere_nonid c p _ (some .nil) hpid, compExp_obj,
    compExpFields_single c p _ (some .nil) hp]
  rfl

theorem computeWhere_in_nullonly (c : Col) (p : String)
    (hp : jsStartsWith p "$" = false) (hpid : p ≠ "_id") :
    computeWhere c (.obj (.cons p (.obj (.cons "$in"
        (.arr (.cons .null .nil)) .nil)) .nil)) (some .nil) =
      .ok (" WHERE " ++ ("(" ++ ((" OR NOT EXISTS " ++ computeDbProp c p)
        ++ ")") ++ ")"), some .nil) := by
  rw [computeWhere_nonid c p _ (some .nil) hpid, compExp_obj,
    compExpFields_single c p _ (some .nil) hp]
  rw [show compEntry c p (.obj (.cons "$in" (.arr (.cons JVal.null .nil))
      .nil)) (some .nil) =
    .ok ((" OR NOT EXISTS " ++ computeDbProp c p) ++ ")", some .nil)
    from rfl]
  simp only [String.empty_append]
  rw [if_neg (append_ne_empty_right _ ")" (by decide)),
    if_neg (append_ne_empty_right _ ")" (by decide))]

/-- **C5.** For a `$in` filter on a non-operator, non-identity property
whose array holds `null` plus `N = pre.length + post.length` non-null
truthy values, the compiled clause is the disjunction
`(prop IN (members) OR EXISTS prop[$element IN (members)]
OR NOT EXISTS prop)` in which the member list is exactly the `N`
canonical binding names (one bound literal per non-null element —
`canonNames` has length `N`), the bindings map holds exactly those `N`
values, and the `null` contributes exactly the one extra
`OR NOT EXISTS` existence-negation branch; a `$in` whose array is empty
contributes no predicate at all (empty clause, bindings untouched); and
a `$in` whose array holds only `null` stores no binding and emits no
comparison, only the existence-negation branch. -/
theorem claim_C5_in_members (c : Col) (p : String) (pre post : List JVal)
    (hp : jsStartsWith p "$" = false) (hpid : p ≠ "_id")
    (hnn : ∀ w ∈ pre ++ post, w ≠ JVal.null)
    (htr : ∀ w ∈ pre ++ post, truthy w = true)
    (hlen : pre.length + post.length ≤ 999)
    (hpos : 0 < pre.length + post.length) :
    (computeWhere c (.obj (.cons p (.obj (.cons "$in"
          (.arr (JList.ofList (pre ++ JVal.null :: post))) .nil)) .nil))
        (some .nil) =
      .ok (" WHERE " ++ ("(" ++
          (("(" ++ computeDbProp c p ++
            (" IN (" ++ jsJoin "," (canonNames
              ("$" ++ jsReplaceFirstDot p)
              (pre.length + post.length)) ++ ")") ++
            " OR EXISTS (" ++ computeDbProp c p ++ "[$element" ++
            (" IN (" ++ jsJoin "," (canonNames
              ("$" ++ jsReplaceFirstDot p)
              (pre.length + post.length)) ++ ")") ++ "])") ++
          (" OR NOT EXISTS " ++ computeDbProp c p) ++ ")") ++ ")"),
        some (JFields.ofList (canonList ("$" ++ jsReplaceFirstDot p)
          (pre ++ post) 1))) ∧
      (canonNames ("$" ++ jsReplaceFirstDot p)
        (pre.length + post.length)).length =
        pre.length + post.length) ∧
    computeWhere c (.obj (.cons p (.obj (.cons "$in" (.arr .nil) .nil))
        .nil)) (some .nil) = .ok ("", some .nil) ∧
    computeWhere c (.obj (.cons p (.obj (.cons "$in"
        (.arr (.cons .null .nil)) .nil)) .nil)) (some .nil) =
      .ok (" WHERE " ++ ("(" ++ ((" OR NOT EXISTS " ++ computeDbProp c p)
        ++ ")") ++ ")"), some .nil) := by
  refine ⟨⟨?_, canonNames_length _ _⟩, computeWhere_in_empty c p hp hpid,
    computeWhere_in_nullonly c p hp hpid⟩
  rw [computeWhere_in_canon c p pre post hp hpid hnn htr hlen hpos,
    memberText_eq_jsJoin _ _ (by omega)]

/-! ### Claim C4 -/

theorem toArrayLoop_ok {α : Type} (st : Store α) (K : Nat)
    (cch : List String) (stm : String) :
    ∀ (batches : List (List α)) (j : Nat) (docs acc : List α),
      acc.length + docs.length + (batches.map List.length).sum ≤ K →
      toArrayLoop st (j + batches.length + 1)
        ⟨docs, true, false, some (batches.map Except.ok), cch, stm, K⟩
        acc = some (.ok ((acc ++ docs) ++ batches.flatten)) := by
  intro batches
  induction batches with
  | nil =>
    intro j docs acc hle
    simp only [List.map_nil, List.sum_nil, Nat.add_zero] at hle
    rw [toArrayLoop]
    simp only [fetchBatch, close]
    simp only [List.length_nil, List.map_nil, List.flatten_nil,
      List.append_nil]
    rw [if_neg (by omega)]
    rfl
  | cons bt rest ih =>
    intro j docs acc hle
    simp only [List.map_cons, List.sum_cons] at hle
    simp only [List.map_cons]
    rw [toArrayLoop]
    dsimp only
    rw [if_neg (by omega)]
    rw [show fetchBatch st ⟨docs, true, false,
        some (Except.ok bt :: List.map Except.ok rest), cch, stm, K⟩ =
      (⟨bt, true, false, some (List.map Except.ok rest), cch, stm, K⟩,
        none) from rfl]
    simp only [Bool.false_eq_true, if_false, List.length_cons,
      List.flatten_cons]
    rw [show j + (rest.length + 1) = j + rest.length + 1 from by omega]
    rw [← List.append_assoc]
    exact ih j bt (acc ++ docs) (by rw [List.length_append]; omega)

theorem toArrayLoop_exceed {α : Type} (st : Store α) (K : Nat)
    (cch : List String) (stm : String) :
    ∀ (batches : List (List α)) (j : Nat) (docs acc : List α),
      K < acc.length + docs.length + (batches.map List.length).sum →
      toArrayLoop st (j + batches.length + 1)
        ⟨docs, true, false, some (batches.map Except.ok), cch, stm, K⟩
        acc = some (.error .resultLimitExceeded) := by
  intro batches
  induction batches with
  | nil =>
    intro j docs acc hgt
    simp only [List.map_nil, List.sum_nil, Nat.add_zero] at hgt
    rw [toArrayLoop]
    dsimp only
    rw [if_pos (by omega)]
  | cons bt rest ih =>
    intro j docs acc hgt
    simp only [List.map_cons, List.sum_cons] at hgt
    by_cases hnow : K < acc.length + docs.length
    · rw [toArrayLoop]
      dsimp only
      rw [if_pos (by omega)]
    · simp only [List.map_cons]
      rw [toArrayLoop]
      dsimp only
      rw [if_neg (by omega)]
      rw [show fetchBatch st ⟨docs, true, false,
          some (Except.ok bt :: List.map Except.ok rest), cch, stm, K⟩ =
        (⟨bt, true, false, some (List.map Except.ok rest), cch, stm, K⟩,
          none) from rfl]
      simp only [Bool.false_eq_true, if_false, List.length_cons]
      rw [show j + (rest.length + 1) = j + rest.length + 1 from by omega]
      exact ih j bt (acc ++ docs) (by rw [List.length_append]; omega)

/-- **C4.** On a fresh cursor capped at `K` over a store whose batches
all succeed: when the store serves at most `K` documents in total
(in particular exactly `K`), `toArray()` succeeds and returns exactly
the served documents in server order (`batches.flatten`, whose length
is the served total); when the store serves more than `K` (in
particular `K + 1`), `toArray()` fails with the result-limit error. -/
theorem claim_C4_toArray_cap {α : Type} (K : Nat) (cch : List String)
    (stm : String) (batches : List (List α)) :
    ((batches.map List.length).sum ≤ K →
      toArray (Store.mk (.ok (batches.map Except.ok)))
          (batches.length + 2) (freshCursor α cch stm K) =
        some (.ok batches.flatten)) ∧
    (K < (batches.map List.length).sum →
      toArray (Store.mk (.ok (batches.map Except.ok)))
          (batches.length + 2) (freshCursor α cch stm K) =
        some (.error .resultLimitExceeded)) ∧
    batches.flatten.length = (batches.map List.length).sum := by
  refine ⟨?_, ?_, by rw [List.length_flatten]⟩
  · intro hsum
    cases batches with
    | nil =>
      rw [toArray, toArrayLoop]
      dsimp only [freshCursor]
      rw [if_neg (by simp)]
      rfl
    | cons b1 rest =>
      simp only [List.map_cons, List.sum_cons] at hsum
      simp only [List.map_cons, List.length_cons, List.flatten_cons]
      rw [toArray, toArrayLoop]
      dsimp only [freshCursor]
      rw [if_neg (by simp)]
      rw [show fetchBatch (Store.mk (α := α)
          (.ok (Except.ok b1 :: List.map Except.ok rest)))
          ⟨[], false, false, none, cch, stm, K⟩ =
        (⟨b1, true, false, some (List.map Except.ok rest),
          (if cch.contains stm then cch else cch ++ [stm]), stm, K⟩,
          none) from rfl]
      simp only [Bool.false_eq_true, if_false, List.nil_append]
      rw [show rest.length + 1 + 1 = 1 + rest.length + 1 from by omega]
      rw [toArrayLoop_ok _ K _ stm rest 1 b1 []
        (by simp only [List.length_nil]; omega)]
      rw [List.nil_append]
  · intro hsum
    cases batches with
    | nil =>
      simp only [List.map_nil, List.sum_nil] at hsum
      exact absurd hsum (by omega)
    | cons b1 rest =>
      simp only [List.map_cons, List.sum_cons] at hsum
      simp only [List.map_cons, List.length_cons]
      rw [toArray, toArrayLoop]
      dsimp only [freshCursor]
      rw [if_neg (by simp)]
      rw [show fetchBatch (Store.mk (α := α)
          (.ok (Except.ok b1 :: List.map Except.ok rest)))
          ⟨[], false, false, none, cch, stm, K⟩ =
        (⟨b1, true, false, some (List.map Except.ok rest),
          (if cch.contains stm then cch else cch ++ [stm]), stm, K⟩,
          none) from rfl]
      simp only [Bool.false_eq_true, if_false, List.nil_append]
      rw [show rest.length + 1 + 1 = 1 + rest.length + 1 from by omega]
      exact toArrayLoop_exceed _ K _ stm rest 1 b1 []
        (by simp only [List.length_nil]; omega)

/-- Claim C4, witness: cap 2 with batches `[[10], [20]]` (total 2)
succeeds with `[10, 20]`; cap 2 with batches `[[10], [20], [30]]`
(total 3 = cap + 1) fails with the result-limit error. -/
theorem claim_C4_toArray_cap_witness :
    toArray (Store.mk (.ok ([[10], [20]].map Except.ok))) 4
        (freshCursor Nat [] "q" 2) = some (.ok [10, 20]) ∧
    toArray (Store.mk (.ok ([[10], [20], [30]].map Except.ok))) 5
        (freshCursor Nat [] "q" 2) =
      some (.error .resultLimitExceeded) :=
  ⟨(claim_C4_toArray_cap 2 [] "q" [[10], [20]]).1 (by decide),
   (claim_C4_toArray_cap 2 [] "q" [[10], [20], [30]]).2.1 (by decide)⟩

/-! ### Claims C6 and C7 -/

theorem fetchBatch_closed {α : Type} (st : Store α) (c : CursorS α)
    (hcl : c.isClosed = true) : fetchBatch st c = (c, none) := by
  simp [fetchBatch, hcl]

theorem stateAfter_closed {α : Type} (st : Store α) (c : CursorS α)
    (hcl : c.isClosed = true) (op : COp) :
    (stateAfter st c op).isClosed = true ∧
    (stateAfter st c op).gen = c.gen ∧
    (stateAfter st c op).cache = c.cache := by
  cases op with
  | fetch => rw [stateAfter, fetchBatch_closed st c hcl]; exact ⟨hcl, rfl, rfl⟩
  | nxt =>
    rw [stateAfter]
    cases hd : c.documents with
    | cons d rest => exact ⟨hcl, rfl, rfl⟩
    | nil =>
      rw [fetchBatch_closed st c hcl]
      simp [hd, hcl]
  | hnext =>
    rw [stateAfter]
    cases hd : c.documents with
    | cons d rest => exact ⟨hcl, rfl, rfl⟩
    | nil => rw [fetchBatch_closed st c hcl]; exact ⟨hcl, rfl, rfl⟩
  | cls => exact ⟨rfl, rfl, rfl⟩

theorem foldl_stateAfter_closed {α : Type} (st : Store α) :
    ∀ (ops : List COp) (c : CursorS α), c.isClosed = true →
      (ops.foldl (stateAfter st) c).isClosed = true ∧
      (ops.foldl (stateAfter st) c).gen = c.gen ∧
      (ops.foldl (stateAfter st) c).cache = c.cache := by
  intro ops
  induction ops with
  | nil => intro c hcl; exact ⟨hcl, rfl, rfl⟩
  | cons op t ih =>
    intro c hcl
    obtain ⟨h1, h2, h3⟩ := stateAfter_closed st c hcl op
    obtain ⟨g1, g2, g3⟩ := ih (stateAfter st c op) h1
    rw [List.foldl_cons]
    exact ⟨g1, by rw [g2, h2], by rw [g3, h3]⟩

theorem next_closed_empty {α : Type} (st : Store α) (c : CursorS α)
    (hcl : c.isClosed = true) (hd : c.documents = []) :
    next st c = .ok (none, c) := by
  rw [next, hd, fetchBatch_closed st c hcl]
  simp only [hd]

theorem toArrayLoop_closed {α : Type} (st : Store α) (c : CursorS α)
    (n : Nat) (acc : List α) (hcl : c.isClosed = true)
    (hle : acc.length + c.documents.length ≤ c.maxLimit) :
    toArrayLoop st (n + 1) c acc = some (.ok (acc ++ c.documents)) := by
  rw [toArrayLoop]
  rw [if_neg (by omega), fetchBatch_closed st c hcl]
  simp [hcl]

/-- **C6 (counterexample).** A mid-stream `gen.next()` failure
propagates the store error without clearing the prepared-statement
cache: on a started cursor whose cache holds the statement, the fetch
fails yet the cache still holds it afterwards (the claimed clearing
would leave it empty). -/
theorem claim_C6_cache_clear_counterexample :
    (fetchBatch (Store.mk (α := Nat) (.ok []))
        ⟨[], true, false, some [.error ()], ["q"], "q", 10⟩).2 =
      some .storeMidStreamFailed ∧
    (fetchBatch (Store.mk (α := Nat) (.ok []))
        ⟨[], true, false, some [.error ()], ["q"], "q", 10⟩).1.cache =
      ["q"] :=
  ⟨rfl, rfl⟩

/-- **C6 (amended).** Only the initial `queryIterable` failure clears
the prepared-statement cache before propagating (as
`storeStartFailed`); a failure of a later `gen.next()` step mid-stream
propagates (as `storeMidStreamFailed`) with the entire cursor state —
in particular the cache — untouched except for the consumed
generator step. -/
theorem claim_C6_cache_clear_amended {α : Type} :
    (∀ (st : Store α) (cch : List String) (stm : String) (K : Nat),
      st.startup = .error () →
      fetchBatch st (freshCursor α cch stm K) =
        (⟨[], true, false, none, [], stm, K⟩, some .storeStartFailed)) ∧
    (∀ (st : Store α) (c : CursorS α)
        (rest : List (Except Unit (List α))),
      c.isClosed = false → c.isStarted = true →
      c.gen = some (.error () :: rest) →
      fetchBatch st c =
        ({ c with gen := some rest }, some .storeMidStreamFailed) ∧
      (fetchBatch st c).1.cache = c.cache) := by
  constructor
  · intro st cch stm K hstart
    simp [fetchBatch, freshCursor, hstart]
  · intro st c rest hcl hst hg
    obtain ⟨docs, started, closed, g, cch, stm, K⟩ := c
    dsimp only at hcl hst hg ⊢
    subst hcl hst hg
    exact ⟨rfl, rfl⟩

/-- Claim C6 (amended), witness at concrete inputs. -/
theorem claim_C6_cache_clear_amended_witness :
    fetchBatch (Store.mk (α := Nat) (.error ()))
        (freshCursor Nat ["p"] "q" 10) =
      (⟨[], true, false, none, [], "q", 10⟩, some .storeStartFailed) ∧
    fetchBatch (Store.mk (α := Nat) (.ok []))
        ⟨[7], true, false, some [.error (), .ok [1]], ["p"], "q", 10⟩ =
      (⟨[7], true, false, some [.ok [1]], ["p"], "q", 10⟩,
        some .storeMidStreamFailed) :=
  ⟨claim_C6_cache_clear_amended.1 (Store.mk (.error ())) ["p"] "q" 10 rfl,
   (claim_C6_cache_clear_amended.2 (Store.mk (.ok []))
      ⟨[7], true, false, some [.error (), .ok [1]], ["p"], "q", 10⟩
      [.ok [1]] rfl rfl rfl).1⟩

/-- **C7.** `close()` is idempotent, sets the closed flag, and is
terminal: a closed cursor's `fetchBatch` is a complete no-op (state
returned unchanged, no error — so no store call), any sequence of
cursor operations leaves the flag set and the generator and cache —
the store-interaction state — untouched, `next()` on a closed cursor
with an empty buffer returns the null sentinel with the state
unchanged, and `toArray()` on a closed cursor (within cap) just
returns the buffered documents. -/
theorem claim_C7_close_terminal {α : Type} :
    (∀ c : CursorS α, close (close c) = close c) ∧
    (∀ c : CursorS α, (close c).isClosed = true) ∧
    (∀ (st : Store α) (c : CursorS α), c.isClosed = true →
      fetchBatch st c = (c, none)) ∧
    (∀ (st : Store α) (ops : List COp) (c : CursorS α),
      c.isClosed = true →
      (ops.foldl (stateAfter st) c).isClosed = true ∧
      (ops.foldl (stateAfter st) c).gen = c.gen ∧
      (ops.foldl (stateAfter st) c).cache = c.cache) ∧
    (∀ (st : Store α) (c : CursorS α), c.isClosed = true →
      c.documents = [] → next st c = .ok (none, c)) ∧
    (∀ (st : Store α) (c : CursorS α) (n : Nat) (acc : List α),
      c.isClosed = true →
      acc.length + c.documents.length ≤ c.maxLimit →
      toArrayLoop st (n + 1) c acc = some (.ok (acc ++ c.documents))) :=
  ⟨fun _ => rfl, fun _ => rfl, fetchBatch_closed,
   fun st ops c => foldl_stateAfter_closed st ops c,
   next_closed_empty, toArrayLoop_closed⟩

/-- Claim C7, witness at concrete inputs: a closed cursor with a
pending generator and a cached statement, run through a sequence of
every operation. -/
theorem claim_C7_close_terminal_witness :
    close (close (freshCursor Nat [] "q" 5)) =
      close (freshCursor Nat [] "q" 5) ∧
    fetchBatch (Store.mk (α := Nat) (.ok []))
        ⟨[7], true, true, some [.ok [1]], ["p"], "q", 10⟩ =
      (⟨[7], true, true, some [.ok [1]], ["p"], "q", 10⟩, none) ∧
    (([COp.fetch, COp.nxt, COp.hnext, COp.cls, COp.fetch].foldl
        (stateAfter (Store.mk (α := Nat) (.ok [])))
        ⟨[7], true, true, some [.ok [1]], ["p"], "q", 10⟩).gen =
      some [.ok [1]]) ∧
    next (Store.mk (α := Nat) (.ok []))
        ⟨[], true, true, some [.ok [1]], ["p"], "q", 10⟩ =
      .ok (none, ⟨[], true, true, some [.ok [1]], ["p"], "q", 10⟩) ∧
    toArrayLoop (Store.mk (α := Nat) (.ok [])) 3
        ⟨[7], true, true, some [.ok [1]], ["p"], "q", 10⟩ [9] =
      some (.ok [9, 7]) := by
  refine ⟨claim_C7_close_terminal.1 (freshCursor Nat [] "q" 5),
    claim_C7_close_terminal.2.2.1 (Store.mk (.ok []))
      ⟨[7], true, true, some [.ok [1]], ["p"], "q", 10⟩ rfl,
    ?_,
    claim_C7_close_terminal.2.2.2.2.1 (Store.mk (.ok []))
      ⟨[], true, true, some [.ok [1]], ["p"], "q", 10⟩ rfl rfl,
    ?_⟩
  · rw [(claim_C7_close_terminal.2.2.2.1 (Store.mk (.ok []))
      [COp.fetch, COp.nxt, COp.hnext, COp.cls, COp.fetch]
      ⟨[7], true, true, some [.ok [1]], ["p"], "q", 10⟩ rfl).2.1]
  · rw [claim_C7_close_terminal.2.2.2.2.2 (Store.mk (.ok []))
      ⟨[7], true, true, some [.ok [1]], ["p"], "q", 10⟩ 2 [9] rfl
      (by decide)]
    rfl

/-! ### Claim C3 -/

mutual
theorem fixBefore_id : ∀ v : JVal, fixFree v = true →
    fixTypesBeforeInsert v = v
  | .null, _ => rfl
  | .undef, _ => rfl
  | .bool _, _ => rfl
  | .num _, _ => rfl
  | .str _, _ => rfl
  | .date _, h => by simp [fixFree] at h
  | .oid _, h => by simp [fixFree] at h
  | .arr xs, h => by
    rw [fixTypesBeforeInsert,
      fixBeforeList_id xs (by simpa [fixFree] using h)]
  | .obj fs, h => by
    rw [fixTypesBeforeInsert, fixBeforeFields_id fs (by
      simp only [fixFree, Bool.and_eq_true] at h
      exact h.2)]

theorem fixBeforeList_id : ∀ xs : JList, fixFreeList xs = true →
    fixBeforeList xs = xs
  | .nil, _ => rfl
  | .cons v t, h => by
    simp only [fixFreeList, Bool.and_eq_true] at h
    rw [fixBeforeList, fixBefore_id v h.1, fixBeforeList_id t h.2]

theorem fixBeforeFields_id : ∀ fs : JFields, fixFreeFields fs = true →
    fixBeforeFields fs = fs
  | .nil, _ => rfl
  | .cons k v t, h => by
    simp only [fixFreeFields, Bool.and_eq_true] at h
    rw [fixBeforeFields, fixBefore_id v h.1, fixBeforeFields_id t h.2]
end

mutual
theorem fixAfter_id : ∀ v : JVal, fixFree v = true →
    fixTypesAfterRead v = v
  | .null, _ => rfl
  | .undef, _ => rfl
  | .bool _, _ => rfl
  | .num _, _ => rfl
  | .str s, h => by
    have hp : jsStartsWith s OBJECTID_PREFIX = false := by
      simpa [fixFree] using h
    simp [fixTypesAfterRead, hp]
  | .date _, h => by simp [fixFree] at h
  | .oid _, h => by simp [fixFree] at h
  | .arr xs, h => by
    rw [fixTypesAfterRead,
      fixAfterList_id xs (by simpa [fixFree] using h)]
  | .obj fs, h => by
    simp only [fixFree, Bool.and_eq_true] at h
    obtain ⟨h1, h2⟩ := h
    have hid : jLookup fs "_id" = none := by
      cases hl : jLookup fs "_id" with
      | none => rfl
      | some v => rw [hl] at h1; simp at h1
    have hg : jGet fs "_id" = .undef := by rw [jGet, hid]; rfl
    rw [fixTypesAfterRead, hg]
    rw [fixAfterFields_id fs h2]

theorem fixAfterList_id : ∀ xs : JList, fixFreeList xs = true →
    fixAfterList xs = xs
  | .nil, _ => rfl
  | .cons v t, h => by
    simp only [fixFreeList, Bool.and_eq_true] at h
    rw [fixAfterList, fixAfter_id v h.1, fixAfterList_id t h.2]

theorem fixAfterFields_id : ∀ fs : JFields, fixFreeFields fs = true →
    fixAfterFields fs = fs
  | .nil, _ => rfl
  | .cons k v t, h => by
    simp only [fixFreeFields, Bool.and_eq_true] at h
    rw [fixAfterFields, fixAfter_id v h.1, fixAfterFields_id t h.2]
end

theorem mem_keys_lookup : ∀ (b : JFields) (k : String),
    k ∈ JFields.keys b → jLookup b k ≠ none := by
  intro b
  induction b with
  | nil => intro k hk; simp [JFields.keys] at hk
  | cons k0 v t ih =>
    intro k hk
    simp only [JFields.keys, List.mem_cons] at hk
    by_cases he : k0 = k
    · simp [jLookup, he]
    · rcases hk with hk | hk
      · exact absurd hk.symm he
      · simp only [jLookup, if_neg he]
        exact ih k hk

theorem jErase_absent : ∀ (b : JFields) (k : String),
    jLookup b k = none → jErase b k = b := by
  intro b
  induction b with
  | nil => intro k _; rfl
  | cons k0 v t ih =>
    intro k h
    by_cases he : k0 = k
    · simp [jLookup, he] at h
    · simp only [jLookup, if_neg he] at h
      simp only [jErase, if_neg he, ih k h]

theorem objectAssign_append : ∀ (src row : JFields),
    (∀ k, k ∈ JFields.keys src → jLookup row k = none) →
    (JFields.keys src).Nodup →
    objectAssign row src = jAppend row src := by
  intro src
  induction src with
  | nil => intro row _ _; exact (jAppend_nil row).symm
  | cons k v t ih =>
    intro row habs hnd
    simp only [JFields.keys, List.nodup_cons] at hnd
    rw [objectAssign]
    rw [jSet_absent row k v (habs k (by simp [JFields.keys]))]
    rw [ih (jAppend row (.cons k v .nil))
      (fun k' hk' => by
        rw [jLookup_jAppend]
        rw [habs k' (by simp only [JFields.keys, List.mem_cons]
                        right; exact hk')]
        have hne : k ≠ k' := fun he => hnd.1 (he ▸ hk')
        simp [jLookup, hne])
      hnd.2]
    rw [jAppend_assoc]
    rfl

/-- **C3 (counterexample).** The marshalling round trip is not the
identity: on a simple-key table a `Date` body field comes back as its
ISO string (`_fixTypesAfterRead` never restores dates), and on a
composite-key table the static `_unmarshalObjectFromRow` (whose
`this._hasCompositeKeys` is `undefined`) takes the simple-key branch,
so the document comes back with `_id` bound to `undefined` instead of
the original key object. -/
theorem claim_C3_roundtrip_counterexample :
    (roundTrip simpleCol (.cons "_id" (.str "k1") (.cons "d"
        (.date "2020-01-01T00:00:00.000Z") .nil)) =
      .obj (.cons "d" (.str "2020-01-01T00:00:00.000Z")
        (.cons "_id" (.str "k1") .nil))) ∧
    JVal.str "2020-01-01T00:00:00.000Z" ≠
      .date "2020-01-01T00:00:00.000Z" ∧
    (roundTrip ⟨true, ["a", "b"]⟩ (.cons "_id" (.obj (.cons "a" (.num 1)
        (.cons "b" (.num 2) .nil))) (.cons "x" (.num 3) .nil)) =
      .obj (.cons "a" (.num 1) (.cons "b" (.num 2) (.cons "x" (.num 3)
        (.cons "_id" .undef .nil))))) ∧
    JVal.undef ≠ .obj (.cons "a" (.num 1) (.cons "b" (.num 2) .nil)) :=
  ⟨rfl, by decide, rfl, by decide⟩

/-- **C3 (amended).** On a simple-key table, a document with a string
identity (not `_obid_`-prefixed) and a body that the type-fixing
passes leave alone (no dates, no ObjectIds, no `_obid_`-prefixed
strings, no nested `_id` fields), without `kvid`/`_id` body keys and
with distinct body keys, round-trips to the same document up to the
position of `_id` (moved to the end): the result is exactly
`body ++ [_id ↦ the original string]`, and every property reads back
equal to the original. -/
theorem claim_C3_roundtrip_amended (s : String) (body : JFields)
    (hs : jsStartsWith s OBJECTID_PREFIX = false)
    (hkv : jLookup body KVID = none)
    (hid : jLookup body "_id" = none)
    (hfree : fixFreeFields body = true)
    (hnd : (JFields.keys body).Nodup) :
    roundTrip simpleCol (.cons "_id" (.str s) body) =
      .obj (jAppend body (.cons "_id" (.str s) .nil)) ∧
    ∀ k, jLookup (jAppend body (.cons "_id" (.str s) .nil)) k =
      jLookup (.cons "_id" (.str s) body) k := by
  have habs : ∀ k, k ∈ JFields.keys body →
      jLookup (JFields.cons KVID (.str s) .nil) k = none := by
    intro k hk
    have hne : KVID ≠ k := fun he =>
      mem_keys_lookup body k hk (by rw [← he]; exact hkv)
    simp [jLookup, hne]
  have hmar : marshallObjectIntoRow simpleCol
      (.cons "_id" (.str s) body) = .cons KVID (.str s) body := by
    rw [marshallObjectIntoRow]
    rw [show jErase (JFields.cons "_id" (JVal.str s) body) "_id" =
      jErase body "_id" from rfl]
    rw [jErase_absent body "_id" hid]
    rw [fixBeforeFields_id body hfree]
    rw [show setPK simpleCol (JFields.cons "_id" (JVal.str s) body) =
      JFields.cons KVID (JVal.str s) .nil from rfl]
    rw [objectAssign_append body (JFields.cons KVID (JVal.str s) .nil)
      habs hnd]
    rfl
  have hfix : fixTypesAfterRead (.obj (.cons KVID (.str s) body)) =
      .obj (.cons KVID (.str s) body) := by
    have hg : jGet (JFields.cons KVID (JVal.str s) body) "_id" =
        .undef := by
      rw [jGet, show jLookup (JFields.cons KVID (JVal.str s) body)
        "_id" = jLookup body "_id" from rfl, hid]
      rfl
    rw [fixTypesAfterRead, hg]
    rw [fixAfterFields]
    rw [fixAfterFields_id body hfree]
    rw [show fixTypesAfterRead (JVal.str s) = JVal.str s from by
      simp [fixTypesAfterRead, hs]]
  have hunm : unmarshalObjectFromRow (.cons KVID (.str s) body) =
      jAppend body (.cons "_id" (.str s) .nil) := by
    rw [unmarshalObjectFromRow]
    rw [show jGet (JFields.cons KVID (JVal.str s) body) KVID =
      JVal.str s from rfl]
    rw [show jSet (JFields.cons KVID (JVal.str s) body) "_id"
        (JVal.str s) =
      JFields.cons KVID (JVal.str s) (jSet body "_id" (JVal.str s))
      from by rw [jSet, if_neg (by decide : ¬(KVID = "_id"))]]
    rw [jSet_absent body "_id" (JVal.str s) hid]
    rw [show jErase (JFields.cons KVID (JVal.str s)
        (jAppend body (JFields.cons "_id" (JVal.str s) JFields.nil)))
        KVID =
      jErase (jAppend body (JFields.cons "_id" (JVal.str s)
        JFields.nil)) KVID from rfl]
    rw [jErase_absent _ KVID (by rw [jLookup_jAppend, hkv]; rfl)]
  constructor
  · rw [roundTrip, hmar, hfix]
    show JVal.obj (unmarshalObjectFromRow
        (JFields.cons KVID (JVal.str s) body)) =
      .obj (jAppend body (.cons "_id" (.str s) .nil))
    rw [hunm]
  · intro k
    by_cases hk : k = "_id"
    · subst hk
      rw [jLookup_jAppend, hid]
      rfl
    · rw [jLookup_jAppend]
      rw [show jLookup (JFields.cons "_id" (JVal.str s) JFields.nil) k =
        none from by rw [jLookup, if_neg (Ne.symm hk), jLookup]]
      rw [Option.or_none]
      rw [show jLookup (JFields.cons "_id" (JVal.str s) body) k =
        jLookup body k from by rw [jLookup, if_neg (Ne.symm hk)]]

/-- Claim C3 (amended), witness: `{_id: "k1", a: 1, t: "x"}`
round-trips to `{a: 1, t: "x", _id: "k1"}` with every property equal
to the original. -/
theorem claim_C3_roundtrip_amended_witness :
    roundTrip simpleCol (.cons "_id" (.str "k1") (.cons "a" (.num 1)
        (.cons "t" (.str "x") .nil))) =
      .obj (jAppend (.cons "a" (.num 1) (.cons "t" (.str "x") .nil))
        (.cons "_id" (.str "k1") .nil)) ∧
    ∀ k, jLookup (jAppend (.cons "a" (.num 1) (.cons "t" (.str "x")
        .nil)) (.cons "_id" (.str "k1") .nil)) k =
      jLookup (.cons "_id" (.str "k1") (.cons "a" (.num 1)
        (.cons "t" (.str "x") .nil))) k :=
  claim_C3_roundtrip_amended "k1"
    (.cons "a" (.num 1) (.cons "t" (.str "x") .nil))
    (by decide) (by decide) (by decide) (by decide) (by decide)

/-! ### Claim C8 -/

theorem prjExcMark_not_inc (v : JVal) (h : prjExcMark v = true) :
    prjIncMark v = false := by
  cases v <;> simp_all [prjIncMark, prjExcMark]
  rcases h with h | h <;> simp [h]

theorem prjIncMark_not_exc (v : JVal) (h : prjIncMark v = true) :
    prjExcMark v = false := by
  cases v <;> simp_all [prjIncMark, prjExcMark]

theorem prjClassLoop_inc_conflict :
    ∀ (fs : JFields) (prjObj : JFields),
      (∀ kv ∈ fs.toList, kv.1 ≠ "_id" →
        (prjIncMark kv.2 || prjExcMark kv.2) = true) →
      (∃ kv ∈ fs.toList, kv.1 ≠ "_id" ∧ prjExcMark kv.2 = true) →
      prjClassLoop fs 1 prjObj = .error .projectionConflict := by
  intro fs
  induction fs with
  | nil => intro prjObj _ hex; simp [JFields.toList] at hex
  | cons k v t ih =>
    intro prjObj hall hex
    rw [prjClassLoop]
    by_cases hk : k = "_id"
    · rw [if_pos hk]
      apply ih
      · intro kv hkv hne
        exact hall kv (by simp only [JFields.toList]; right; exact hkv) hne
      · obtain ⟨kv, hkv, hne, hm⟩ := hex
        simp only [JFields.toList] at hkv
        rcases List.mem_cons.mp hkv with heq | htl
        · exact absurd hk (by rw [heq] at hne; exact hne)
        · exact ⟨kv, htl, hne, hm⟩
    · rw [if_neg hk]
      have hhead := hall (k, v) (by simp [JFields.toList]) hk
      by_cases hvexc : prjExcMark v = true
      · have hvinc : prjIncMark v = false := prjExcMark_not_inc v hvexc
        simp [hvinc, hvexc]
      · have hvinc : prjIncMark v = true := by
          simp only [hvexc, Bool.or_false] at hhead
          exact hhead
        simp only [hvinc, if_true, show ¬((1 : Int) = -1) from by decide,
          if_false]
        apply ih
        · intro kv hkv hne
          exact hall kv (by simp only [JFields.toList]; right; exact hkv)
            hne
        · obtain ⟨kv, hkv, hne, hm⟩ := hex
          simp only [JFields.toList] at hkv
          rcases List.mem_cons.mp hkv with heq | htl
          · exact absurd hm (by rw [heq]; simp [hvexc])
          · exact ⟨kv, htl, hne, hm⟩

theorem prjClassLoop_exc_conflict :
    ∀ (fs : JFields) (prjObj : JFields),
      (∀ kv ∈ fs.toList, kv.1 ≠ "_id" →
        (prjIncMark kv.2 || prjExcMark kv.2) = true) →
      (∃ kv ∈ fs.toList, kv.1 ≠ "_id" ∧ prjIncMark kv.2 = true) →
      prjClassLoop fs (-1) prjObj = .error .projectionConflict := by
  intro fs
  induction fs with
  | nil => intro prjObj _ hex; simp [JFields.toList] at hex
  | cons k v t ih =>
    intro prjObj hall hex
    rw [prjClassLoop]
    by_cases hk : k = "_id"
    · rw [if_pos hk]
      apply ih
      · intro kv hkv hne
        exact hall kv (by simp only [JFields.toList]; right; exact hkv) hne
      · obtain ⟨kv, hkv, hne, hm⟩ := hex
        simp only [JFields.toList] at hkv
        rcases List.mem_cons.mp hkv with heq | htl
        · exact absurd hk (by rw [heq] at hne; exact hne)
        · exact ⟨kv, htl, hne, hm⟩
    · rw [if_neg hk]
      by_cases hvinc : prjIncMark v = true
      · simp [hvinc]
      · have hvexc : prjExcMark v = true := by
          have hhead := hall (k, v) (by simp [JFields.toList]) hk
          simp only [hvinc, Bool.false_or] at hhead
          exact hhead
        simp only [hvinc, Bool.false_eq_true, if_false, hvexc, if_true,
          show ¬((-1 : Int) = 1) from by decide]
        apply ih
        · intro kv hkv hne
          exact hall kv (by simp only [JFields.toList]; right; exact hkv)
            hne
        · obtain ⟨kv, hkv, hne, hm⟩ := hex
          simp only [JFields.toList] at hkv
          rcases List.mem_cons.mp hkv with heq | htl
          · exact absurd hm (by rw [heq]; simp [hvinc])
          · exact ⟨kv, htl, hne, hm⟩

theorem prjClassLoop_mixed_conflict :
    ∀ (fs : JFields) (prjObj : JFields),
      (∀ kv ∈ fs.toList, kv.1 ≠ "_id" →
        (prjIncMark kv.2 || prjExcMark kv.2) = true) →
      (∃ kv ∈ fs.toList, kv.1 ≠ "_id" ∧ prjIncMark kv.2 = true) →
      (∃ kv ∈ fs.toList, kv.1 ≠ "_id" ∧ prjExcMark kv.2 = true) →
      prjClassLoop fs 0 prjObj = .error .projectionConflict := by
  intro fs
  induction fs with
  | nil => intro prjObj _ hinc _; simp [JFields.toList] at hinc
  | cons k v t ih =>
    intro prjObj hall hinc hexc
    rw [prjClassLoop]
    by_cases hk : k = "_id"
    · rw [if_pos hk]
      apply ih
      · intro kv hkv hne
        exact hall kv (by simp only [JFields.toList]; right; exact hkv) hne
      · obtain ⟨kv, hkv, hne, hm⟩ := hinc
        simp only [JFields.toList] at hkv
        rcases List.mem_cons.mp hkv with heq | htl
        · exact absurd hk (by rw [heq] at hne; exact hne)
        · exact ⟨kv, htl, hne, hm⟩
      · obtain ⟨kv, hkv, hne, hm⟩ := hexc
        simp only [JFields.toList] at hkv
        rcases List.mem_cons.mp hkv with heq | htl
        · exact absurd hk (by rw [heq] at hne; exact hne)
        · exact ⟨kv, htl, hne, hm⟩
    · rw [if_neg hk]
      by_cases hvinc : prjIncMark v = true
      · simp only [hvinc, if_true, show ¬((0 : Int) = -1) from by decide,
          if_false]
        apply prjClassLoop_inc_conflict
        · intro kv hkv hne
          exact hall kv (by simp only [JFields.toList]; right; exact hkv)
            hne
        · obtain ⟨kv, hkv, hne, hm⟩ := hexc
          simp only [JFields.toList] at hkv
          rcases List.mem_cons.mp hkv with heq | htl
          · exact absurd hm
              (by rw [heq]; simp [prjIncMark_not_exc v hvinc])
          · exact ⟨kv, htl, hne, hm⟩
      · by_cases hvexc : prjExcMark v = true
        · simp only [hvinc, Bool.false_eq_true, if_false, hvexc, if_true,
            show ¬((0 : Int) = 1) from by decide]
          apply prjClassLoop_exc_conflict
          · intro kv hkv hne
            exact hall kv (by simp only [JFields.toList]; right; exact hkv)
              hne
          · obtain ⟨kv, hkv, hne, hm⟩ := hinc
            simp only [JFields.toList] at hkv
            rcases List.mem_cons.mp hkv with heq | htl
            · exact absurd hm (by rw [heq]; simp [hvinc])
            · exact ⟨kv, htl, hne, hm⟩
        · exact absurd (hall (k, v) (by simp [JFields.toList]) hk)
            (by simp [hvinc, hvexc])

/-- **C8 (counterexample).** The projection `{b: 0, c: "$x", a: 1}`
maps the non-identity field `b` to 0 and the non-identity field `a` to
1, yet compiles without the conflict error: the computed value `"$x"`
in between resets the classification to inclusive with no conflict
check, so the later `a: 1` no longer sees the exclusive state. -/
theorem claim_C8_projection_conflict_counterexample :
    conputeProjection simpleCol (.obj (.cons "b" (.num 0) (.cons "c"
        (.str "$x") (.cons "a" (.num 1) .nil)))) none =
      .ok "$t.\"kvid\"[] AS kvid, $t.\"x\"[] AS c, $t.\"a\"[] AS a" ∧
    prjExcMark (.num 0) = true ∧ prjIncMark (.num 1) = true ∧
    ("b" : String) ≠ "_id" ∧ ("a" : String) ≠ "_id" :=
  ⟨rfl, rfl, rfl, by decide, by decide⟩

/-- **C8 (amended).** When every non-identity value of the projection
is a pure inclusion/exclusion marker (1/true/0/false), mapping one
non-identity field to an inclusion marker and another to an exclusion
marker fails with the projection-conflict error, in either order; the
purity restriction is necessary, because any other value (a computed
projection) resets the classification to inclusive without a conflict
check. -/
theorem claim_C8_projection_conflict_amended (c : Col)
    (schema : Option Schema) (fs : JFields)
    (hall : ∀ kv ∈ fs.toList, kv.1 ≠ "_id" →
      (prjIncMark kv.2 || prjExcMark kv.2) = true)
    (hinc : ∃ kv ∈ fs.toList, kv.1 ≠ "_id" ∧ prjIncMark kv.2 = true)
    (hexc : ∃ kv ∈ fs.toList, kv.1 ≠ "_id" ∧ prjExcMark kv.2 = true) :
    conputeProjection c (.obj fs) schema = .error .projectionConflict := by
  have h := prjClassLoop_mixed_conflict fs .nil hall hinc hexc
  simp [conputeProjection, truthy, innerFields, h]

/-- Claim C8 (amended), witness: `{a: 1, b: 0}` and `{x: false, y: true}`
both fail with the conflict error. -/
theorem claim_C8_projection_conflict_amended_witness :
    conputeProjection simpleCol (.obj (.cons "a" (.num 1)
        (.cons "b" (.num 0) .nil))) none = .error .projectionConflict ∧
    conputeProjection simpleCol (.obj (.cons "x" (.bool false)
        (.cons "y" (.bool true) .nil))) (some ⟨[]⟩) =
      .error .projectionConflict :=
  ⟨claim_C8_projection_conflict_amended simpleCol none _
     (by decide) (by decide) (by decide),
   claim_C8_projection_conflict_amended simpleCol (some ⟨[]⟩) _
     (by decide) (by decide) (by decide)⟩

/-- Claim C5, witness at concrete inputs: `{a: \x7b$in: ["x", null, 2]\x7d}`
on the simple-key collection. -/
theorem claim_C5_in_members_witness :
    computeWhere simpleCol (.obj (.cons "a" (.obj (.cons "$in"
        (.arr (JList.ofList ([JVal.str "x"] ++ JVal.null :: [JVal.num 2])))
        .nil)) .nil)) (some .nil) =
      .ok (" WHERE (($t.\"a\"[] IN ($a,$a2) OR EXISTS ($t.\"a\"[][$element IN ($a,$a2)]) OR NOT EXISTS $t.\"a\"[]))",
        some (JFields.ofList [("$a", JVal.str "x"), ("$a2", JVal.num 2)])) ∧
    computeWhere simpleCol (.obj (.cons "a" (.obj (.cons "$in"
        (.arr (.cons .null .nil)) .nil)) .nil)) (some .nil) =
      .ok (" WHERE ( OR NOT EXISTS $t.\"a\"[]))", some .nil) := by
  have h := claim_C5_in_members simpleCol "a" [JVal.str "x"] [JVal.num 2]
    (by decide) (by decide) (by decide) (by decide) (by decide) (by decide)
  exact ⟨by rw [h.1.1]; rfl, by rw [h.2.2]; rfl⟩

end Orcoos
